import Mathlib

/-!
# DataTransferKit: the batched query dispatcher of the linear BVH

A shallow embedding of `packages/Search/src/DTK_LinearBVH_decl.hpp`: the
accessors `BVH::size`, `BVH::empty`, `BVH::bounds`, the two `queryDispatch`
overloads (nearest and spatial predicates) and the two `BVH::query` overloads;
and of `packages/Operators/src/DTK_MapOperator_impl.hpp`: `opSupportedImpl`
and `applyImpl` of the map operator.

Conventions of the embedding.

* A `Kokkos::View<T *>` is a list of its elements.  Reading or writing an
  element outside the extent is undefined behaviour in C++ and is `none` here.
* C++ `int` values are `Int`; where the source computes a sum that has to
  fit an `int` the model checks the range and fails (`none`) when it does not.
* `Kokkos::parallel_for` over `RangePolicy( 0, n )` runs every index of
  `[0, n)` once, in an order chosen by the execution space; an execution space
  is a family of such orders, and every theorem holds for all of them.  One
  iteration runs at a time: the theorems that describe the contents of the
  output views assume that no query reports more hits than the slots reserved
  for it, and distinct iterations then write distinct slots.
* Code of the repository that the dispatcher calls and that is not at hand
  (the utilities `fill`, `exclusivePrefixSum`, `lastElement`, the tree
  traversal, the predicates, the contract macros) is modelled from the
  specification or taken as a parameter; each such definition says so.
* The scalars of the map operator are the elements of a semiring and its
  multi-vectors those of a module over it: the arithmetic is exact.  The
  functions of Thyra that `applyImpl` calls follow their documentation.
-/

namespace DataTransferKit

/-! ## Views -/

/-- A rank-one `Kokkos::View<T *, DeviceType>`: its elements in order. -/
abbrev View (α : Type) := List α

/-- The largest value of the C++ type `int` (32 bits). -/
def INT_MAX : Int := 2147483647

/-- The smallest value of the C++ type `int` (32 bits). -/
def INT_MIN : Int := -2147483648

/-- Whether an integer is a value of the C++ type `int`. -/
def isInt (x : Int) : Bool := decide (INT_MIN ≤ x) && decide (x ≤ INT_MAX)

/-- The sum `a + b` of two `int`s: `none` when it is not a value of `int`
(signed overflow). -/
def intAdd (a b : Int) : Option Int :=
  if isInt (a + b) then some (a + b) else none

/-- The read access `v( i )`: `none` outside the extent. -/
def View.read {α : Type} (v : View α) (i : Int) : Option α :=
  if 0 ≤ i then v[i.toNat]? else none

/-- The write access `v( i ) = x`: `none` outside the extent. -/
def View.write {α : Type} (v : View α) (i : Int) (x : α) : Option (View α) :=
  if 0 ≤ i ∧ i < (v.length : Int) then some (v.set i.toNat x) else none

/-- The conversion `int const n = view.extent( 0 )`: the extent as an `int`,
`none` when it is not a value of `int` (the narrowing is then
implementation-defined). -/
def View.extentInt {α : Type} (v : View α) : Option Int :=
  if (v.length : Int) ≤ INT_MAX then some (v.length : Int) else none

/-- `Kokkos::realloc( v, n )` with an `int` argument: the view is replaced by a
fresh allocation of extent `n` whose elements are value-initialised; the
former contents are discarded.  A negative `n` converts to an extent that
cannot be allocated. -/
def realloc {α : Type} [Inhabited α] (_v : View α) (n : Int) : Option (View α) :=
  if 0 ≤ n then some (List.replicate n.toNat default) else none

/-- Modelled from the spec: `fill` of DTK_DetailsUtils.hpp, which is not part
of the sources at hand; "`fill(v, x)` sets each element to `x`". -/
def fill {α : Type} (v : View α) (x : α) : View α :=
  v.map (fun _ => x)

/-- The running sums `acc, acc + v[0], acc + v[0] + v[1], ...`, one per element
of `v` (the sum of all elements is not among them). -/
def exclusiveScan (acc : Int) : View Int → View Int
  | [] => []
  | x :: xs => acc :: exclusiveScan (acc + x) xs

/-- Modelled from the spec: `exclusivePrefixSum` of DTK_DetailsUtils.hpp, which
is not part of the sources at hand; "`exclusive_prefix_sum(v)` writes
`v[0]←0, v[i]←v[0..i−1]` in place on a length-M view".  The elements are C++
`int`s: a prefix sum that is not a value of `int` is a signed overflow and
the call fails. -/
def exclusivePrefixSum (v : View Int) : Option (View Int) :=
  if (exclusiveScan 0 v).all isInt then some (exclusiveScan 0 v) else none

/-- Modelled from the spec: `lastElement` of DTK_DetailsUtils.hpp, which is not
part of the sources at hand; "`last_element(v)` returns `v[M−1]`". -/
def lastElement {α : Type} (v : View α) : Option α :=
  v.getLast?

/-! ## Doubles -/

/-- The values of the C++ type `double` (IEEE 754 binary64).  The dispatcher
stores and copies distances and never computes with them, so only the
identity of a value matters: a finite value is `(-1)^negative * mantissa *
2^exponent`. -/
inductive Double where
  | finite (negative : Bool) (mantissa : Nat) (exponent : Int)
  | infinity (negative : Bool)
  | nan
  deriving DecidableEq, Repr

instance : Inhabited Double := ⟨Double.finite false 0 0⟩

/-- `Kokkos::ArithTraits<double>::max()`: the largest finite double, `DBL_MAX =
(2^53 - 1) * 2^971`. -/
def ArithTraits_double_max : Double := Double.finite false 9007199254740991 971

/-- Positive infinity, `Kokkos::ArithTraits<double>::infinity()`. -/
def Double.posInf : Double := Double.infinity false

/-! ## The tree -/

/-- A tree node.  Modelled from the spec: `Node` of DTK_DetailsNode.hpp, which
is not part of the sources at hand; the source at hand reads only
`bounding_box`.  The type of boxes is a parameter, its default value is the
default-constructed `Box()`. -/
structure Node (Box : Type) where
  bounding_box : Box
  children : Int × Int

/-- The data members of `class BVH`. -/
structure BVH (Box : Type) where
  _leaf_nodes : View (Node Box)
  _internal_nodes : View (Node Box)
  _indices : View Int

/-- `BVH::size`: the extent of the view of leaf nodes. -/
def BVH.size {Box : Type} (bvh : BVH Box) : Nat :=
  bvh._leaf_nodes.length

/-- `BVH::empty`. -/
def BVH.empty {Box : Type} (bvh : BVH Box) : Bool :=
  bvh.size == 0

/-- `BVH::bounds`: `none` when element 0 of the selected view does not
exist. -/
def BVH.bounds {Box : Type} [Inhabited Box] (bvh : BVH Box) : Option Box :=
  if bvh.empty then some default
  else ((if bvh.size > 1 then bvh._internal_nodes else bvh._leaf_nodes).read 0).map
    (fun node => node.bounding_box)

/-! ## Queries and the traversal -/

/-- A nearest predicate.  Modelled from the spec: `Nearest` of
DTK_DetailsPredicate.hpp, which is not part of the sources at hand; "a query
`Point` and an integer `k`".  The dispatcher reads only `_k`. -/
structure Nearest (Geometry : Type) where
  _query_point : Geometry
  _k : Int

/-- What one call of `Details::TreeTraversal::query( bvh, query, callback )`
does as seen by its caller: the arguments of the successive invocations of
the callback, and the `int` it returns. -/
structure Trace (Hit : Type) where
  hits : List Hit
  count : Int

/-- The invocations of a callback, one after the other on the hits of a trace;
a callback that fails (an access outside a view) ends the call. -/
def invoke {Hit σ : Type} (callback : Hit → σ → Option σ) : List Hit → σ → Option σ
  | [], s => some s
  | h :: hs, s => (callback h s).bind (invoke callback hs)

/-- A call of `query( bvh, query, callback )` whose behaviour is the given
trace, with the state `s` captured by the callback: the state after the last
invocation and the value returned. -/
def Trace.query {Hit σ : Type} (t : Trace Hit) (callback : Hit → σ → Option σ) (s : σ) :
    Option (σ × Int) :=
  (invoke callback t.hits s).map (fun s1 => (s1, t.count))

/-- Modelled from the spec: `Details::TreeTraversal` of
DTK_DetailsTreeTraversal.hpp, which is not part of the sources at hand;
"`traverse(tree, predicate, hit)` invokes `hit(leaf_original_index [,
distance])` for every leaf satisfying the predicate".  Which leaves are
reported, in which order and what is returned is a parameter: a function of
the tree and the query alone (the tree is immutable, the traversal is pure).
A spatial hit is an index, a nearest hit an index and a distance. -/
structure TreeTraversal (Box Spatial Geometry : Type) where
  spatial : BVH Box → Spatial → Trace Int
  nearest : BVH Box → Nearest Geometry → Trace (Int × Double)

/-! ## Execution spaces -/

/-- The `execution_space` of a `DeviceType`, as far as `parallel_for` over a
`RangePolicy( 0, n )` depends on it: the order in which the kernel named
`region` runs the indices of `[0, n)`, each exactly once. -/
structure ExecutionSpace where
  order : String → Nat → List Nat
  perm : ∀ (region : String) (n : Nat), (order region n).Perm (List.range n)

/-- The loop of a `parallel_for`: the body runs on each index of the order in
turn; a body that fails ends the loop. -/
def parallel_for.loop {σ : Type} (body : Nat → σ → Option σ) : List Nat → σ → Option σ
  | [], s => some s
  | i :: is, s => (body i s).bind (parallel_for.loop body is)

/-- `Kokkos::parallel_for( REGION_NAME( region ), RangePolicy( 0, n ), body )`
followed by `Kokkos::fence()`. -/
def parallel_for {σ : Type} (E : ExecutionSpace) (region : String) (n : Int)
    (body : Nat → σ → Option σ) (s : σ) : Option σ :=
  parallel_for.loop body (E.order region n.toNat) s

/-- The serial execution space: indices in increasing order. -/
def Serial : ExecutionSpace where
  order := fun _ n => List.range n
  perm := fun _ _ => List.Perm.refl _

/-- An execution space that runs indices in decreasing order. -/
def Reversed : ExecutionSpace where
  order := fun _ n => (List.range n).reverse
  perm := fun _ n => List.reverse_perm (List.range n)

/-! ## The dispatchers -/

/-- The output views of a query; `distances` is present when the caller passed
a view of distances. -/
structure Views where
  indices : View Int
  offset : View Int
  distances : Option (View Double)
  deriving DecidableEq, Repr

/-- The callback of the second pass, `indices( offset( i ) + count++ ) =
index`: the state is the view of indices and the local `count`.  The sum
`offset( i ) + count` is taken in the integers: a sum that is not a value of
`int` lies outside every extent, so that the write fails either way. -/
def storeIndex (offset : View Int) (i : Nat) (index : Int) (s : View Int × Int) :
    Option (View Int × Int) := do
  let start ← offset.read i
  let indices ← s.1.write (start + s.2) index
  pure (indices, s.2 + 1)

/-- The callback of the second pass that also returns distances:
`indices( offset( i ) + count ) = index; distances( offset( i ) + count ) =
distance; count++`.  The state is the two views and the local `count`. -/
def storeIndexAndDistance (offset : View Int) (i : Nat) (hit : Int × Double)
    (s : (View Int × View Double) × Int) : Option ((View Int × View Double) × Int) := do
  let start ← offset.read i
  let indices ← s.1.1.write (start + s.2) hit.1
  let start ← offset.read i
  let distances ← s.1.2.write (start + s.2) hit.2
  pure ((indices, distances), s.2 + 1)

/-- `queryDispatch` for `Details::NearestPredicateTag`. -/
def queryDispatchNearest {Box Spatial Geometry : Type} (E : ExecutionSpace)
    (T : TreeTraversal Box Spatial Geometry) (bvh : BVH Box)
    (queries : View (Nearest Geometry)) (indices offset : View Int)
    (distances_ptr : Option (View Double)) : Option Views := do
  let n_queries ← queries.extentInt
  let n_offset ← intAdd n_queries 1
  let offset ← realloc offset n_offset
  let offset := fill offset 0
  let offset ← parallel_for E "scan_queries_for_numbers_of_nearest_neighbors" n_queries
    (fun i offset => do
      let query ← queries.read i
      offset.write i query._k) offset
  let offset ← exclusivePrefixSum offset
  let n_results ← lastElement offset
  let indices ← realloc indices n_results
  let indices := fill indices (-1)
  match distances_ptr with
  | some distances => do
    let distances ← realloc distances n_results
    let distances := fill distances ArithTraits_double_max
    let out ← parallel_for E "perform_nearest_queries_and_return_distances" n_queries
      (fun i s => do
        let query ← queries.read i
        let r ← (T.nearest bvh query).query (storeIndexAndDistance offset i) (s, 0)
        pure r.1.1) (indices, distances)
    pure { indices := out.1, offset := offset, distances := some out.2 }
  | none => do
    let indices ← parallel_for E "perform_nearest_queries" n_queries
      (fun i indices => do
        let query ← queries.read i
        let r ← (T.nearest bvh query).query
          (fun hit => storeIndex offset i hit.1) (indices, 0)
        pure r.1.1) indices
    pure { indices := indices, offset := offset, distances := none }

/-- `queryDispatch` for `Details::SpatialPredicateTag`. -/
def queryDispatchSpatial {Box Spatial Geometry : Type} (E : ExecutionSpace)
    (T : TreeTraversal Box Spatial Geometry) (bvh : BVH Box)
    (queries : View Spatial) (indices offset : View Int) : Option Views := do
  let n_queries ← queries.extentInt
  let n_offset ← intAdd n_queries 1
  let offset ← realloc offset n_offset
  let offset := fill offset 0
  let offset ← parallel_for E "first_pass_at_the_search_count_the_number_of_indices"
    n_queries
    (fun i offset => do
      let query ← queries.read i
      let r ← (T.spatial bvh query).query (fun _index (u : Unit) => some u) ()
      offset.write i r.2) offset
  let offset ← exclusivePrefixSum offset
  let n_results ← lastElement offset
  let indices ← realloc indices n_results
  let indices ← parallel_for E "second_pass" n_queries
    (fun i indices => do
      let query ← queries.read i
      let r ← (T.spatial bvh query).query (storeIndex offset i) (indices, 0)
      pure r.1.1) indices
  pure { indices := indices, offset := offset, distances := none }

/-- A batch of queries of one predicate type, with the tag `Query::Tag` that
selects the dispatcher at compile time. -/
inductive Queries (Spatial Geometry : Type) where
  | SpatialPredicateTag (queries : View Spatial)
  | NearestPredicateTag (queries : View (Nearest Geometry))

/-- The number of queries of a batch. -/
def Queries.extent {Spatial Geometry : Type} : Queries Spatial Geometry → Nat
  | Queries.SpatialPredicateTag queries => queries.length
  | Queries.NearestPredicateTag queries => queries.length

/-- `BVH::query( queries, indices, offset )`. -/
def BVH.query {Box Spatial Geometry : Type} (E : ExecutionSpace)
    (T : TreeTraversal Box Spatial Geometry) (bvh : BVH Box)
    (queries : Queries Spatial Geometry) (indices offset : View Int) : Option Views :=
  match queries with
  | Queries.SpatialPredicateTag queries => queryDispatchSpatial E T bvh queries indices offset
  | Queries.NearestPredicateTag queries =>
    queryDispatchNearest E T bvh queries indices offset none

/-- `BVH::query( queries, indices, offset, distances )`, enabled for nearest
predicates only. -/
def BVH.queryDistances {Box Spatial Geometry : Type} (E : ExecutionSpace)
    (T : TreeTraversal Box Spatial Geometry) (bvh : BVH Box)
    (queries : View (Nearest Geometry)) (indices offset : View Int)
    (distances : View Double) : Option Views :=
  queryDispatchNearest E T bvh queries indices offset (some distances)

/-! ## The map operator -/

/-- `Thyra::EOpTransp`, the transpose argument of a linear operator. -/
inductive Thyra.EOpTransp where
  | NOTRANS
  | CONJ
  | TRANS
  | CONJTRANS
  deriving DecidableEq, Repr

/-- `Thyra::LinearOpBase<Scalar>` as far as the map operator uses it: the
action `op` of the operator, not transposed, on a multi-vector.  The vector
spaces of the domain and of the range are the types `D` and `W`, so that a
multi-vector is compatible with the space it is typed in. -/
structure Thyra.LinearOpBase (Scalar D W : Type) where
  op : D → W

/-- `M.apply( Thyra::NOTRANS, X, Y, alpha, beta )`: `Y = alpha*M*X + beta*Y`;
with `beta = 0` the former contents of `Y` are not read. -/
def Thyra.LinearOpBase.apply {Scalar D W : Type} [Semiring Scalar] [DecidableEq Scalar]
    [AddCommMonoid W] [Module Scalar W] (M : Thyra.LinearOpBase Scalar D W)
    (X : D) (Y : W) (alpha beta : Scalar) : W :=
  if beta = 0 then alpha • M.op X else alpha • M.op X + beta • Y

/-- `Thyra::createMembers( space, n )`: a fresh multi-vector.  Its contents are
unspecified; they are never read, the operator that fills it is applied with
`beta = 0`. -/
def Thyra.createMembers {W : Type} [Zero W] : W := 0

/-- `Thyra::assign( Y, X )`: `Y = X`. -/
def Thyra.assign {W : Type} (_Y X : W) : W := X

/-- `Thyra::Vp_V( Z, X )`: `Z = Z + X`. -/
def Thyra.Vp_V {W : Type} [Add W] (Z X : W) : W := Z + X

/-- `Thyra::Vt_S( Z, alpha )`: `Z = alpha*Z`. -/
def Thyra.Vt_S {Scalar W : Type} [SMul Scalar W] (Z : W) (alpha : Scalar) : W := alpha • Z

/-- `Thyra::update( alpha, U, V )`: `V = alpha*U + V`. -/
def Thyra.update {Scalar W : Type} [SMul Scalar W] [Add W] (alpha : Scalar) (U V : W) : W :=
  alpha • U + V

/-- The check that ends a call.  Modelled from the spec: the macros
`DTK_INSIST`, `DTK_REQUIRE` and `DTK_CHECK` of DTK_DBC.hpp, which is not part
of the sources at hand; a violation is "signaled by a fatal, non-recoverable
assertion": the call ends at the check that fails and nothing after it
runs. -/
inductive Assertion where
  | DTK_INSIST
  | DTK_REQUIRE
  | DTK_CHECK
  deriving DecidableEq, Repr

/-- The data members of `MapOperator<Scalar>` that `applyImpl` reads; a null
`Teuchos::RCP` is `none`.  The coupling matrix maps the domain `D` to the
range `W`, the inverse of the mass matrix maps `W` to itself and the forcing
vector lies in `W`. -/
structure MapOperator (Scalar D W : Type) where
  b_coupling_matrix : Option (Thyra.LinearOpBase Scalar D W)
  b_mass_matrix_inv : Option (Thyra.LinearOpBase Scalar W W)
  b_forcing_vector : Option W

/-- `MapOperator::opSupportedImpl( M_trans )`. -/
def MapOperator.opSupportedImpl {Scalar D W : Type} (_self : MapOperator Scalar D W)
    (M_trans : Thyra.EOpTransp) : Bool :=
  decide (M_trans = Thyra.EOpTransp.NOTRANS)

/-- `MapOperator::applyImpl( M_trans, domain_dofs, range_dofs, alpha, beta )`:
the check that ended the call, if any, and the multi-vector that `range_dofs`
points to after the call (`none` for a null pointer).  The two `DTK_CHECK`s
of compatibility hold by typing. -/
def MapOperator.applyImpl {Scalar D W : Type} [Semiring Scalar] [DecidableEq Scalar]
    [AddCommMonoid W] [Module Scalar W] (self : MapOperator Scalar D W)
    (M_trans : Thyra.EOpTransp) (domain_dofs : D) (range_dofs : Option W)
    (alpha beta : Scalar) : Option Assertion × Option W :=
  if ¬ self.opSupportedImpl M_trans then (some Assertion.DTK_INSIST, range_dofs) else
  match self.b_coupling_matrix with
  | none => (some Assertion.DTK_REQUIRE, range_dofs)
  | some coupling_matrix =>
  match range_dofs with
  | none => (some Assertion.DTK_REQUIRE, range_dofs)
  | some g =>
    -- Make a temporary copy of the range dofs if beta is not zero.
    let range_copy : Option W := if 0 ≠ beta then some (Thyra.assign g g) else none
    -- Make a work vector.
    let work : W := Thyra.createMembers
    -- A*f
    let work := coupling_matrix.apply domain_dofs work 1 0
    -- v+A*f
    let work := match self.b_forcing_vector with
      | some forcing_vector => Thyra.Vp_V work forcing_vector
      | none => work
    -- Minv*(v+A*f)
    let g := match self.b_mass_matrix_inv with
      | some mass_matrix_inv => mass_matrix_inv.apply work g 1 0
      | none => Thyra.assign g work
    let g := Thyra.Vt_S g alpha
    if 0 ≠ beta then
      match range_copy with
      | some copy => (none, some (Thyra.update beta copy g))
      | none => (some Assertion.DTK_REQUIRE, some g)
    else (none, some g)

/-! ## Auxiliary definitions for the proofs -/

/-- The effect of the second-pass callbacks of one query: `data` is written to
consecutive slots from `start` on. -/
def scatter {α : Type} (v : View α) (start : Int) : List α → Option (View α)
  | [] => some v
  | x :: xs => (v.write start x).bind (fun v1 => scatter v1 (start + 1) xs)

/-- The counts of the first pass of the spatial dispatcher: what the
count-only traversal returns, query by query. -/
def spatialCounts {Box Spatial Geometry : Type} (T : TreeTraversal Box Spatial Geometry)
    (bvh : BVH Box) (queries : View Spatial) : List Int :=
  queries.map (fun q => (T.spatial bvh q).count)

/-- The indices that the traversal of spatial query `i` hands to its callback,
in order (nothing when there is no query `i`). -/
def spatialHits {Box Spatial Geometry : Type} (T : TreeTraversal Box Spatial Geometry)
    (bvh : BVH Box) (queries : View Spatial) (i : Nat) : List Int :=
  match queries[i]? with
  | some q => (T.spatial bvh q).hits
  | none => []

/-- The numbers `_k` of a batch of nearest queries. -/
def nearestK {Geometry : Type} (queries : View (Nearest Geometry)) : List Int :=
  queries.map (fun q => q._k)

/-- The hits that the traversal of nearest query `i` hands to its callback, in
order (nothing when there is no query `i`). -/
def nearestHits {Box Spatial Geometry : Type} (T : TreeTraversal Box Spatial Geometry)
    (bvh : BVH Box) (queries : View (Nearest Geometry)) (i : Nat) : List (Int × Double) :=
  match queries[i]? with
  | some q => (T.nearest bvh q).hits
  | none => []

/-- The callback of the second pass with its write replaced by a record of the
slot it targets, `offset( i ) + count`: the state is the list of the slots
targeted so far and the local `count`.  Both callbacks of the second pass
target this slot, the one that returns distances in both of its views. -/
def targetSlot {Hit : Type} (offset : View Int) (i : Nat) (_hit : Hit)
    (s : List Int × Int) : Option (List Int × Int) := do
  let start ← offset.read i
  pure (s.1 ++ [start + s.2], s.2 + 1)

/-- The slots that the callbacks of query `i` target when the traversal hands
them `hits`, in the order of the writes. -/
def targets {Hit : Type} (offset : View Int) (i : Nat) (hits : List Hit) :
    Option (List Int) :=
  (invoke (targetSlot offset i) hits ([], 0)).map Prod.fst

/-- The writes `v( p ) = x` of a list of pairs of a slot and a value, one after
the other; a write outside the extent ends them. -/
def View.writeEach {α : Type} (v : View α) : List (Int × α) → Option (View α)
  | [] => some v
  | w :: ws => (v.write w.1 w.2).bind (fun v1 => View.writeEach v1 ws)

/-- The writes of the second pass stay within the slices of the offsets: the
last offset `offset( n )` is the extent of the view written, the slots
`writes i` that query `i` targets lie in `[offset( i ), offset( i + 1 ))` and
inside `[0, extent)`, and two distinct queries target no common slot. -/
def WritesWithinSlices (offset : View Int) (extent : Nat) (n : Nat)
    (writes : Nat → Option (List Int)) : Prop :=
  offset.read (n : Int) = some (extent : Int) ∧
  (∀ i, i < n → ∃ (a b : Int) (ts : List Int),
    offset.read (i : Int) = some a ∧ offset.read ((i : Int) + 1) = some b ∧
    writes i = some ts ∧
    ∀ p ∈ ts, a ≤ p ∧ p < b ∧ 0 ≤ p ∧ p < (extent : Int)) ∧
  (∀ i j, i < n → j < n → i ≠ j → ∀ ts us : List Int,
    writes i = some ts → writes j = some us → ∀ p ∈ ts, p ∉ us)

/-! ## A concrete instance for the examples -/

/-- A one-dimensional box `[lo, hi]` with integer bounds, used where an example
needs concrete boxes; the default-constructed box is empty (`lo > hi`). -/
structure Interval where
  lo : Int
  hi : Int
  deriving DecidableEq, Repr

instance : Inhabited Interval := ⟨{ lo := 1, hi := 0 }⟩

/-- The distance from a point to an interval. -/
def Interval.distance (b : Interval) (p : Int) : Nat :=
  if p < b.lo then (b.lo - p).toNat else if b.hi < p then (p - b.hi).toNat else 0

/-- The boxes of the leaves of a tree with their original indices, in leaf
order. -/
def leaves (bvh : BVH Interval) : List (Interval × Int) :=
  (bvh._leaf_nodes.map (fun node => node.bounding_box)).zip bvh._indices

/-- The nearest candidates of a point: distance and original index of every
leaf, by ascending distance, ties by ascending index. -/
def candidates (bvh : BVH Interval) (p : Int) : List (Nat × Int) :=
  ((leaves bvh).map (fun l => (l.1.distance p, l.2))).insertionSort
    (fun a b => a.1 < b.1 ∨ (a.1 = b.1 ∧ a.2 ≤ b.2))

/-- A brute-force traversal over one-dimensional boxes, for the examples: a
spatial query is an interval and reports the leaves that intersect it, in
leaf order, returning their number; a nearest query reports the `k` nearest
leaves by ascending distance, ties by ascending index. -/
def bruteForce : TreeTraversal Interval Interval Int where
  spatial := fun bvh q =>
    { hits := ((leaves bvh).filter
        (fun l => decide (l.1.lo ≤ q.hi) && decide (q.lo ≤ l.1.hi))).map Prod.snd,
      count := (((leaves bvh).filter
        (fun l => decide (l.1.lo ≤ q.hi) && decide (q.lo ≤ l.1.hi))).length : Int) }
  nearest := fun bvh q =>
    { hits := ((candidates bvh q._query_point).take q._k.toNat).map
        (fun c => (c.2, Double.finite false c.1 0)),
      count := (((candidates bvh q._query_point).take q._k.toNat).length : Int) }

/-- The empty tree, built from no box. -/
def emptyTree : BVH Interval :=
  { _leaf_nodes := [], _internal_nodes := [], _indices := [] }

/-- The tree of the single box `[0, 1]`. -/
def singleTree : BVH Interval :=
  { _leaf_nodes := [{ bounding_box := { lo := 0, hi := 1 }, children := (-1, -1) }],
    _internal_nodes := [],
    _indices := [0] }

/-- The tree of the boxes `[4, 5]`, `[0, 1]`, `[2, 3]` (original indices 0, 1,
2): the leaves are sorted along the axis. -/
def threeTree : BVH Interval :=
  { _leaf_nodes := [{ bounding_box := { lo := 0, hi := 1 }, children := (-1, -1) },
                    { bounding_box := { lo := 2, hi := 3 }, children := (-1, -1) },
                    { bounding_box := { lo := 4, hi := 5 }, children := (-1, -1) }],
    _internal_nodes := [{ bounding_box := { lo := 0, hi := 5 }, children := (2, 1) },
                        { bounding_box := { lo := 2, hi := 5 }, children := (3, 4) }],
    _indices := [1, 2, 0] }

/-- A batch of three spatial queries: the intervals `[1, 2]`, `[7, 8]` and
`[0, 9]`. -/
def spatialBatch : View Interval :=
  [{ lo := 1, hi := 2 }, { lo := 7, hi := 8 }, { lo := 0, hi := 9 }]

/-- A batch of three nearest queries: the 5 nearest of point 0, the 2 nearest of
point 3, the 0 nearest of point 3. -/
def nearestBatch : View (Nearest Int) :=
  [{ _query_point := 0, _k := 5 }, { _query_point := 3, _k := 2 },
   { _query_point := 3, _k := 0 }]

/-- A map operator over the integers on pairs, for the examples: the coupling
matrix with rows `(1, 2)` and `(3, 4)`, the diagonal matrix `(2, 3)` in place
of the inverse of the mass matrix, and the forcing vector `(1, -1)`. -/
def pairOperator : MapOperator Int (Int × Int) (Int × Int) :=
  { b_coupling_matrix := some { op := fun f => (f.1 + 2 * f.2, 3 * f.1 + 4 * f.2) },
    b_mass_matrix_inv := some { op := fun w => (2 * w.1, 3 * w.2) },
    b_forcing_vector := some (1, -1) }

/-- A map operator with a coupling matrix only: no mass matrix, no forcing
vector. -/
def bareOperator : MapOperator Int (Int × Int) (Int × Int) :=
  { b_coupling_matrix := some { op := fun f => (f.1 + 2 * f.2, 3 * f.1 + 4 * f.2) },
    b_mass_matrix_inv := none,
    b_forcing_vector := none }

/-! ## Views: reading and writing -/

theorem View.read_natCast {α : Type} (v : View α) (p : Nat) : v.read (p : Int) = v[p]? := by
  simp [View.read]

theorem View.read_eq_none_of_le {α : Type} (v : View α) {p : Int} (h : (v.length : Int) ≤ p) :
    v.read p = none := by
  have h0 : 0 ≤ p := le_trans (Int.ofNat_nonneg _) h
  simp only [View.read, h0, if_true]
  apply List.getElem?_eq_none
  omega

theorem View.write_eq_some {α : Type} {v : View α} {i : Int} (x : α) (h0 : 0 ≤ i)
    (h1 : i < (v.length : Int)) : v.write i x = some (v.set i.toNat x) := by
  simp [View.write, h0, h1]

theorem View.read_set {α : Type} (v : View α) {i : Int} (x : α) (h0 : 0 ≤ i)
    (h1 : i < (v.length : Int)) (p : Int) :
    View.read (v.set i.toNat x) p = if p = i then some x else v.read p := by
  by_cases hp : 0 ≤ p
  · simp only [View.read, hp, if_true]
    by_cases hpi : p = i
    · subst hpi
      have : p.toNat < v.length := by omega
      simp [this]
    · have hne : i.toNat ≠ p.toNat := by omega
      simp [hpi, List.getElem?_set_ne hne]
  · have hpi : p ≠ i := by omega
    simp [View.read, hp, hpi]

theorem View.ext_read {α : Type} {v w : View α} (h : ∀ p : Nat, v.read (p : Int) = w.read (p : Int)) :
    v = w := by
  apply List.ext_getElem?
  intro n
  simpa [View.read_natCast] using h n

/-! ## One run of callbacks -/

theorem scatter_spec {α : Type} (data : List α) :
    ∀ (v : View α) (s : Int), 0 ≤ s → s + (data.length : Int) ≤ (v.length : Int) →
      ∃ w, scatter v s data = some w ∧ w.length = v.length ∧
        (∀ j : Nat, j < data.length → w.read (s + (j : Int)) = data[j]?) ∧
        (∀ p : Int, p < s ∨ s + (data.length : Int) ≤ p → w.read p = v.read p) := by
  induction data with
  | nil =>
    intro v s _ _
    exact ⟨v, rfl, rfl, fun j hj => absurd hj (Nat.not_lt_zero j), fun _ _ => rfl⟩
  | cons x xs ih =>
    intro v s h0 h1
    have hlen : ((x :: xs).length : Int) = (xs.length : Int) + 1 := by simp
    have hs : s < (v.length : Int) := by omega
    obtain ⟨w, hw, hwl, hin, hout⟩ := ih (v.set s.toNat x) (s + 1) (by omega)
      (by rw [List.length_set]; omega)
    refine ⟨w, ?_, ?_, ?_, ?_⟩
    · simp [scatter, View.write_eq_some x h0 hs, hw]
    · rw [hwl, List.length_set]
    · intro j hj
      cases j with
      | zero =>
        rw [Int.ofNat_zero, Int.add_zero, hout s (Or.inl (by omega)), View.read_set v x h0 hs]
        simp
      | succ j =>
        have hj1 : j < xs.length := by simpa using hj
        have e : s + ((j + 1 : Nat) : Int) = s + 1 + (j : Int) := by push_cast; omega
        rw [e, hin j hj1]
        simp
    · intro p hp
      have hp1 : p < s + 1 ∨ s + 1 + (xs.length : Int) ≤ p := by omega
      have hne : p ≠ s := by omega
      rw [hout p hp1, View.read_set v x h0 hs, if_neg hne]

/-! ## A parallel loop of disjoint runs -/

theorem loop_congr {σ : Type} {f g : Nat → σ → Option σ} :
    ∀ (order : List Nat) (s : σ), (∀ i ∈ order, ∀ t, f i t = g i t) →
      parallel_for.loop f order s = parallel_for.loop g order s := by
  intro order
  induction order with
  | nil => intro s _; rfl
  | cons i rest ih =>
    intro s h
    have hi : f i s = g i s := h i (List.mem_cons_self i rest) s
    have hrest : ∀ t, parallel_for.loop f rest t = parallel_for.loop g rest t :=
      fun t => ih t (fun j hj => h j (List.mem_cons_of_mem i hj))
    simp only [parallel_for.loop, hi]
    cases g i s with
    | none => rfl
    | some t => exact hrest t

theorem loop_scatter {α : Type} (s : Nat → Int) (d : Nat → List α) :
    ∀ (order : List Nat) (v : View α), order.Nodup →
      (∀ i ∈ order, 0 ≤ s i ∧ s i + ((d i).length : Int) ≤ (v.length : Int)) →
      (∀ i ∈ order, ∀ j ∈ order, i ≠ j →
        s i + ((d i).length : Int) ≤ s j ∨ s j + ((d j).length : Int) ≤ s i) →
      ∃ w, parallel_for.loop (fun i t => scatter t (s i) (d i)) order v = some w ∧
        w.length = v.length ∧
        (∀ i ∈ order, ∀ j : Nat, j < (d i).length → w.read (s i + (j : Int)) = (d i)[j]?) ∧
        (∀ p : Int, (∀ i ∈ order, p < s i ∨ s i + ((d i).length : Int) ≤ p) →
          w.read p = v.read p) := by
  intro order
  induction order with
  | nil =>
    intro v _ _ _
    exact ⟨v, rfl, rfl, fun i hi => absurd hi (List.not_mem_nil i), fun _ _ => rfl⟩
  | cons i rest ih =>
    intro v hnd hin hdis
    have hirest : i ∉ rest := (List.nodup_cons.mp hnd).1
    obtain ⟨v1, hv1, hl1, hin1, hout1⟩ :=
      scatter_spec (d i) v (s i) (hin i (List.mem_cons_self i rest)).1
        (hin i (List.mem_cons_self i rest)).2
    obtain ⟨w, hw, hwl, hwin, hwout⟩ := ih v1 (List.nodup_cons.mp hnd).2
      (fun j hj => by rw [hl1]; exact hin j (List.mem_cons_of_mem i hj))
      (fun j hj k hk hjk =>
        hdis j (List.mem_cons_of_mem i hj) k (List.mem_cons_of_mem i hk) hjk)
    refine ⟨w, ?_, ?_, ?_, ?_⟩
    · simp [parallel_for.loop, hv1, hw]
    · rw [hwl, hl1]
    · intro j hj n hn
      rcases List.mem_cons.mp hj with rfl | hjr
      · rw [hwout, hin1 n hn]
        intro k hk
        have hne : j ≠ k := fun e => hirest (e ▸ hk)
        have := hdis j (List.mem_cons_self j rest) k (List.mem_cons_of_mem j hk) hne
        omega
      · exact hwin j hjr n hn
    · intro p hp
      rw [hwout p (fun k hk => hp k (List.mem_cons_of_mem i hk))]
      exact hout1 p (hp i (List.mem_cons_self i rest))


/-! ## Callbacks as runs -/

theorem scatter_singleton {α : Type} (v : View α) (s : Int) (x : α) :
    scatter v s [x] = v.write s x := by
  simp only [scatter]
  cases v.write s x <;> rfl

theorem invoke_noop {Hit : Type} (hits : List Hit) :
    invoke (fun (_ : Hit) (u : Unit) => some u) hits () = some () := by
  induction hits with
  | nil => rfl
  | cons h hs ih => simpa [invoke] using ih

theorem invoke_map {Hit Arg σ : Type} (g : Hit → Arg) (f : Arg → σ → Option σ)
    (hits : List Hit) (s : σ) :
    invoke (fun hit => f (g hit)) hits s = invoke f (hits.map g) s := by
  induction hits generalizing s with
  | nil => rfl
  | cons h hs ih =>
    simp only [invoke, List.map_cons]
    cases f (g h) s with
    | none => rfl
    | some t => exact ih t

theorem invoke_storeIndex (offset : View Int) (i : Nat) (o : Int)
    (ho : offset.read (i : Int) = some o) (hits : List Int) :
    ∀ (v : View Int) (c : Int),
      invoke (storeIndex offset i) hits (v, c) =
        (scatter v (o + c) hits).map (fun w => (w, c + (hits.length : Int))) := by
  induction hits with
  | nil => intro v c; simp [invoke, scatter]
  | cons h hs ih =>
    intro v c
    simp only [invoke, scatter, storeIndex, ho, Option.bind_eq_bind, Option.some_bind,
      Option.pure_def]
    cases v.write (o + c) h with
    | none => rfl
    | some v1 =>
      simp only [Option.some_bind]
      rw [ih v1 (c + 1)]
      have e1 : o + (c + 1) = o + c + 1 := by omega
      have e2 : c + 1 + (hs.length : Int) = c + ((h :: hs).length : Int) := by
        simp only [List.length_cons]; push_cast; omega
      rw [e1, e2]

theorem invoke_storeIndexAndDistance (offset : View Int) (i : Nat) (o : Int)
    (ho : offset.read (i : Int) = some o) (hits : List (Int × Double)) :
    ∀ (v : View Int) (d : View Double) (c : Int),
      invoke (storeIndexAndDistance offset i) hits ((v, d), c) =
        (scatter v (o + c) (hits.map Prod.fst)).bind (fun v1 =>
          (scatter d (o + c) (hits.map Prod.snd)).map (fun d1 =>
            ((v1, d1), c + (hits.length : Int)))) := by
  induction hits with
  | nil => intro v d c; simp [invoke, scatter]
  | cons h hs ih =>
    intro v d c
    simp only [invoke, scatter, storeIndexAndDistance, ho, Option.bind_eq_bind,
      Option.some_bind, Option.pure_def, List.map_cons]
    have e1 : o + (c + 1) = o + c + 1 := by omega
    have e2 : c + 1 + (hs.length : Int) = c + ((h :: hs).length : Int) := by
      simp only [List.length_cons]; push_cast; omega
    cases v.write (o + c) h.1 with
    | none => rfl
    | some v1 =>
      cases d.write (o + c) h.2 with
      | none =>
        simp only [Option.some_bind, Option.none_bind]
        cases scatter v1 (o + c + 1) (hs.map Prod.fst) <;> rfl
      | some d1 =>
        simp only [Option.some_bind]
        rw [ih v1 d1 (c + 1), e1, e2]

/-! ## Running sums -/

theorem exclusiveScan_length (v : View Int) : ∀ acc : Int, (exclusiveScan acc v).length = v.length := by
  induction v with
  | nil => intro acc; rfl
  | cons x xs ih => intro acc; simp [exclusiveScan, ih]

theorem exclusiveScan_getElem? (v : View Int) :
    ∀ (acc : Int) (i : Nat), i < v.length →
      (exclusiveScan acc v)[i]? = some (acc + (v.take i).sum) := by
  induction v with
  | nil => intro acc i hi; exact absurd hi (Nat.not_lt_zero i)
  | cons x xs ih =>
    intro acc i hi
    cases i with
    | zero => simp [exclusiveScan]
    | succ i =>
      have hi1 : i < xs.length := by simpa using hi
      simp only [exclusiveScan, List.getElem?_cons_succ, List.take_succ_cons, List.sum_cons]
      rw [ih (acc + x) i hi1, Int.add_assoc]

theorem take_sum_succ (cs : List Int) (i : Nat) (hi : i < cs.length) :
    (cs.take (i + 1)).sum = (cs.take i).sum + cs[i] := by
  rw [List.take_succ, List.sum_append, List.getElem?_eq_getElem hi]
  simp

theorem take_sum_nonneg (cs : List Int) (hc : ∀ x ∈ cs, 0 ≤ x) (i : Nat) :
    0 ≤ (cs.take i).sum :=
  List.sum_nonneg (fun x hx => hc x (List.mem_of_mem_take hx))

theorem take_sum_mono (cs : List Int) (hc : ∀ x ∈ cs, 0 ≤ x) :
    ∀ (i j : Nat), i ≤ j → (cs.take i).sum ≤ (cs.take j).sum := by
  induction cs with
  | nil => intro i j _; simp
  | cons x xs ih =>
    intro i j hij
    have hxs : ∀ y ∈ xs, 0 ≤ y := fun y hy => hc y (List.mem_cons_of_mem x hy)
    cases i with
    | zero => simpa using take_sum_nonneg (x :: xs) hc j
    | succ i =>
      cases j with
      | zero => exact absurd hij (Nat.not_succ_le_zero i)
      | succ j =>
        have := ih hxs i j (Nat.le_of_succ_le_succ hij)
        simp only [List.take_succ_cons, List.sum_cons]
        omega

theorem take_sum_le_sum (cs : List Int) (hc : ∀ x ∈ cs, 0 ≤ x) (i : Nat) :
    (cs.take i).sum ≤ cs.sum := by
  have := take_sum_mono cs hc i (max i cs.length) (le_max_left _ _)
  rwa [List.take_of_length_le (le_max_right _ _)] at this

theorem exclusiveScan_read (cs : List Int) (i : Nat) (hi : i ≤ cs.length) :
    (exclusiveScan 0 (cs ++ [0])).read (i : Int) = some (cs.take i).sum := by
  rw [View.read_natCast, exclusiveScan_getElem? _ 0 i (by simp; omega),
    List.take_append_of_le_length hi]
  simp

theorem exclusiveScan_last (cs : List Int) :
    lastElement (exclusiveScan 0 (cs ++ [0])) = some cs.sum := by
  have h := exclusiveScan_read cs cs.length (le_refl _)
  rw [View.read_natCast, List.take_length] at h
  rw [lastElement, List.getLast?_eq_getElem?, exclusiveScan_length]
  simpa using h

theorem exclusiveScan_all_isInt (cs : List Int) (hc : ∀ x ∈ cs, 0 ≤ x)
    (hsum : cs.sum ≤ INT_MAX) : (exclusiveScan 0 (cs ++ [0])).all isInt = true := by
  rw [List.all_eq_true]
  intro x hx
  obtain ⟨i, hi, rfl⟩ := List.getElem_of_mem hx
  rw [exclusiveScan_length] at hi
  have hi1 : i ≤ cs.length := by simp at hi; omega
  have h := exclusiveScan_read cs i hi1
  rw [View.read_natCast, List.getElem?_eq_getElem (by rw [exclusiveScan_length]; exact hi)] at h
  have hx : (exclusiveScan 0 (cs ++ [0]))[i] = (cs.take i).sum := Option.some.inj h
  have h0 := take_sum_nonneg cs hc i
  have h1 := take_sum_le_sum cs hc i
  rw [hx]
  simp only [isInt, INT_MIN, Bool.and_eq_true, decide_eq_true_eq]
  constructor
  · omega
  · exact le_trans h1 hsum

/-- Every slot below the total lies in the range of some query. -/
theorem exists_range_of_lt_sum (cs : List Int) (hc : ∀ x ∈ cs, 0 ≤ x) :
    ∀ p : Int, 0 ≤ p → p < cs.sum →
      ∃ i : Nat, ∃ hi : i < cs.length, (cs.take i).sum ≤ p ∧ p < (cs.take i).sum + cs[i] := by
  induction cs with
  | nil => intro p h0 h1; simp at h1; omega
  | cons x xs ih =>
    intro p h0 h1
    have hxs : ∀ y ∈ xs, 0 ≤ y := fun y hy => hc y (List.mem_cons_of_mem x hy)
    by_cases hp : p < x
    · exact ⟨0, by simp, by simpa using h0, by simpa using hp⟩
    · rw [List.sum_cons] at h1
      obtain ⟨i, hi, h2, h3⟩ := ih hxs (p - x) (by omega) (by omega)
      refine ⟨i + 1, by simpa using hi, ?_, ?_⟩
      · simp only [List.take_succ_cons, List.sum_cons]; omega
      · simp only [List.take_succ_cons, List.sum_cons, List.getElem_cons_succ]; omega

/-! ## The first pass -/

theorem fill_replicate {α : Type} (n : Nat) (a x : α) :
    fill (List.replicate n a) x = List.replicate n x := by
  simp [fill]

theorem View.read_of_lt {α : Type} (v : View α) (i : Nat) (hi : i < v.length) :
    v.read (i : Int) = some v[i] := by
  rw [View.read_natCast, List.getElem?_eq_getElem hi]

theorem parallel_for_natCast {σ : Type} (E : ExecutionSpace) (region : String) (n : Nat)
    (body : Nat → σ → Option σ) (s : σ) :
    parallel_for E region (n : Int) body s = parallel_for.loop body (E.order region n) s := by
  simp [parallel_for]

theorem mem_order {order : List Nat} {n : Nat} (hperm : order.Perm (List.range n)) {i : Nat}
    (hi : i ∈ order) : i < n :=
  List.mem_range.mp (hperm.subset hi)

theorem order_nodup {order : List Nat} {n : Nat} (hperm : order.Perm (List.range n)) :
    order.Nodup :=
  hperm.nodup_iff.mpr (List.nodup_range n)

theorem mem_order_of_lt {order : List Nat} {n : Nat} (hperm : order.Perm (List.range n))
    {i : Nat} (hi : i < n) : i ∈ order :=
  hperm.symm.subset (List.mem_range.mpr hi)

/-- The first pass, whatever the order of its iterations: entry `i` receives the
value computed for query `i`, the last entry keeps its zero. -/
theorem first_pass {β : Type} (queries : View β) (f : β → Int) (order : List Nat)
    (hperm : order.Perm (List.range queries.length)) :
    parallel_for.loop
        (fun i (offset : View Int) =>
          (queries.read (i : Int)).bind (fun q => offset.write (i : Int) (f q)))
        order (List.replicate (queries.length + 1) 0)
      = some (queries.map f ++ [0]) := by
  have hcongr := loop_congr (f := fun i (offset : View Int) =>
      (queries.read (i : Int)).bind (fun q => offset.write (i : Int) (f q)))
    (g := fun i t => scatter t (i : Int) [(queries.map f).getD i 0]) order
    (List.replicate (queries.length + 1) 0)
    (fun i hi t => by
      have hlt := mem_order hperm hi
      simp [View.read_of_lt queries i hlt, scatter_singleton, hlt])
  rw [hcongr]
  obtain ⟨w, hw, hwl, hin, hout⟩ := loop_scatter (fun i => (i : Int))
    (fun i => [(queries.map f).getD i 0]) order (List.replicate (queries.length + 1) 0)
    (order_nodup hperm)
    (fun i hi => by
      have hlt := mem_order hperm hi
      simp only [List.length_singleton, List.length_replicate]
      omega)
    (fun i _ j _ hij => by
      simp only [List.length_singleton]
      omega)
  rw [hw]
  congr 1
  apply View.ext_read
  intro p
  rcases Nat.lt_trichotomy p queries.length with hp | hp | hp
  · have h := hin p (mem_order_of_lt hperm hp) 0 (by simp)
    simp only [Int.ofNat_zero, Int.add_zero] at h
    rw [h, View.read_natCast, List.getElem?_append_left (by simpa using hp)]
    simp [hp]
  · have h := hout (p : Int) (fun i hi => by
      have hlt := mem_order hperm hi
      simp only [List.length_singleton]
      omega)
    rw [h, View.read_natCast, View.read_natCast, hp]
    simp
  · rw [View.read_eq_none_of_le w (by rw [hwl]; simp; omega),
      View.read_eq_none_of_le _ (by simp; omega)]

/-! ## The dispatchers in closed form -/

theorem spatial_second_body {Box Spatial Geometry : Type} (T : TreeTraversal Box Spatial Geometry)
    (bvh : BVH Box) (queries : View Spatial) (offset : View Int) (i : Nat)
    (hi : i < queries.length) (o : Int) (ho : offset.read (i : Int) = some o)
    (indices : View Int) :
    (do
      let query ← queries.read i
      let r ← (T.spatial bvh query).query (storeIndex offset i) (indices, 0)
      pure r.1.1) = scatter indices o (spatialHits T bvh queries i) := by
  simp only [View.read_of_lt queries i hi, Trace.query, invoke_storeIndex offset i o ho,
    spatialHits, List.getElem?_eq_getElem hi, Option.bind_eq_bind, Option.some_bind,
    Option.pure_def, Int.add_zero]
  cases scatter indices o (T.spatial bvh queries[i]).hits <;> rfl

theorem queryDispatchSpatial_eq {Box Spatial Geometry : Type} (E : ExecutionSpace)
    (T : TreeTraversal Box Spatial Geometry) (bvh : BVH Box)
    (queries : View Spatial) (indices offset : View Int) :
    queryDispatchSpatial E T bvh queries indices offset =
      if (queries.length : Int) + 1 ≤ INT_MAX then
        if (exclusiveScan 0 (spatialCounts T bvh queries ++ [0])).all isInt then
          if 0 ≤ (spatialCounts T bvh queries).sum then
            (parallel_for.loop
              (fun i t => scatter t ((spatialCounts T bvh queries).take i).sum
                (spatialHits T bvh queries i))
              (E.order "second_pass" queries.length)
              (List.replicate (spatialCounts T bvh queries).sum.toNat 0)).map
              (fun ind => { indices := ind,
                            offset := exclusiveScan 0 (spatialCounts T bvh queries ++ [0]),
                            distances := none })
          else none
        else none
      else none := by
  have hperm1 := E.perm "first_pass_at_the_search_count_the_number_of_indices" queries.length
  have hperm2 := E.perm "second_pass" queries.length
  rw [queryDispatchSpatial]
  simp only [Option.bind_eq_bind, Option.pure_def]
  by_cases h1 : (queries.length : Int) + 1 ≤ INT_MAX
  · have h2 : (queries.length : Int) ≤ INT_MAX := by omega
    have h3 : isInt ((queries.length : Int) + 1) = true := by
      simp only [isInt, INT_MIN, Bool.and_eq_true, decide_eq_true_eq]
      omega
    have h4 : ((queries.length : Int) + 1).toNat = queries.length + 1 := by omega
    have h5 : queries.extentInt = some (queries.length : Int) := by
      simp only [View.extentInt, h2, if_true]
    have h6 : intAdd (queries.length : Int) 1 = some ((queries.length : Int) + 1) := by
      simp only [intAdd, h3, if_true]
    have h7 : realloc offset ((queries.length : Int) + 1)
        = some (List.replicate (queries.length + 1) 0) := by
      simp only [realloc, show (0 : Int) ≤ (queries.length : Int) + 1 from by omega, if_true, h4]
      rfl
    have h8 : parallel_for E "first_pass_at_the_search_count_the_number_of_indices"
        (queries.length : Int)
        (fun i (offset : View Int) =>
          (queries.read (i : Int)).bind fun query =>
            ((T.spatial bvh query).query (fun _index (u : Unit) => some u) ()).bind fun r =>
              offset.write (i : Int) r.2)
        (fill (List.replicate (queries.length + 1) 0) 0)
        = some (spatialCounts T bvh queries ++ [0]) := by
      rw [parallel_for_natCast, fill_replicate, spatialCounts, ← first_pass queries
        (fun q => (T.spatial bvh q).count) _ hperm1]
      apply loop_congr
      intro i _ t
      simp [Trace.query, invoke_noop]
    rw [h5, Option.some_bind, h6, Option.some_bind, h7, Option.some_bind, h8, Option.some_bind,
      if_pos h1]
    by_cases h9 : (exclusiveScan 0 (spatialCounts T bvh queries ++ [0])).all isInt = true
    · have h10 : exclusivePrefixSum (spatialCounts T bvh queries ++ [0])
          = some (exclusiveScan 0 (spatialCounts T bvh queries ++ [0])) := by
        simp only [exclusivePrefixSum, h9, if_true]
      rw [h10, Option.some_bind, exclusiveScan_last, Option.some_bind, if_pos h9]
      by_cases h11 : 0 ≤ (spatialCounts T bvh queries).sum
      · have h12 : realloc indices (spatialCounts T bvh queries).sum
            = some (List.replicate (spatialCounts T bvh queries).sum.toNat 0) := by
          simp only [realloc, h11, if_true]
          rfl
        rw [h12, Option.some_bind, if_pos h11, parallel_for_natCast]
        have h13 := loop_congr
          (f := fun i (indices : View Int) =>
            (queries.read (i : Int)).bind fun query =>
              ((T.spatial bvh query).query
                (storeIndex (exclusiveScan 0 (spatialCounts T bvh queries ++ [0])) i)
                (indices, 0)).bind fun r => some r.1.1)
          (g := fun i t => scatter t ((spatialCounts T bvh queries).take i).sum
            (spatialHits T bvh queries i))
          (E.order "second_pass" queries.length)
          (List.replicate (spatialCounts T bvh queries).sum.toNat 0)
          (fun i hi t => by
            have hlt := mem_order hperm2 hi
            have ho := exclusiveScan_read (spatialCounts T bvh queries) i
              (by simp only [spatialCounts, List.length_map]; omega)
            simpa using spatial_second_body T bvh queries _ i hlt _ ho t)
        rw [h13]
        cases parallel_for.loop (fun i t => scatter t ((spatialCounts T bvh queries).take i).sum
            (spatialHits T bvh queries i)) (E.order "second_pass" queries.length)
            (List.replicate (spatialCounts T bvh queries).sum.toNat 0) <;> rfl
      · have h12 : realloc indices (spatialCounts T bvh queries).sum = none := by
          simp only [realloc, h11, if_false]
        rw [h12, Option.none_bind, if_neg h11]
    · have h10 : exclusivePrefixSum (spatialCounts T bvh queries ++ [0]) = none := by
        simp only [exclusivePrefixSum, h9]
        rfl
      rw [h10, Option.none_bind, if_neg h9]
  · rw [if_neg h1]
    by_cases h2 : (queries.length : Int) ≤ INT_MAX
    · have h5 : queries.extentInt = some (queries.length : Int) := by
        simp only [View.extentInt, h2, if_true]
      have h6 : intAdd (queries.length : Int) 1 = none := by
        have : isInt ((queries.length : Int) + 1) = false := by
          simp only [isInt, Bool.and_eq_false_iff, decide_eq_false_iff_not]
          right; exact h1
        simp only [intAdd, this]
        rfl
      rw [h5, Option.some_bind, h6, Option.none_bind]
    · have h5 : queries.extentInt = none := by
        simp only [View.extentInt, h2, if_false]
      rw [h5, Option.none_bind]

theorem loop_pair {α β : Type} (f : Nat → View α → Option (View α))
    (g : Nat → View β → Option (View β)) :
    ∀ (order : List Nat) (a : View α) (b : View β),
      parallel_for.loop
          (fun i (s : View α × View β) =>
            (f i s.1).bind fun a1 => (g i s.2).map fun b1 => (a1, b1))
          order (a, b)
        = (parallel_for.loop f order a).bind fun a1 =>
            (parallel_for.loop g order b).map fun b1 => (a1, b1) := by
  intro order
  induction order with
  | nil => intro a b; rfl
  | cons i rest ih =>
    intro a b
    simp only [parallel_for.loop]
    cases f i a with
    | none => rfl
    | some a1 =>
      cases g i b with
      | none =>
        simp only [Option.some_bind, Option.map_none', Option.none_bind]
        cases parallel_for.loop f rest a1 <;> rfl
      | some b1 =>
        simp only [Option.some_bind, Option.map_some']
        exact ih a1 b1

theorem nearest_second_body {Box Spatial Geometry : Type}
    (T : TreeTraversal Box Spatial Geometry) (bvh : BVH Box)
    (queries : View (Nearest Geometry)) (offset : View Int) (i : Nat)
    (hi : i < queries.length) (o : Int) (ho : offset.read (i : Int) = some o)
    (indices : View Int) :
    ((queries.read (i : Int)).bind fun query =>
      ((T.nearest bvh query).query (fun hit => storeIndex offset i hit.1) (indices, 0)).bind
        fun r => some r.1.1)
      = scatter indices o ((nearestHits T bvh queries i).map Prod.fst) := by
  simp only [View.read_of_lt queries i hi, Trace.query, nearestHits,
    List.getElem?_eq_getElem hi, Option.some_bind]
  rw [invoke_map Prod.fst (storeIndex offset i), invoke_storeIndex offset i o ho, Int.add_zero]
  cases scatter indices o ((T.nearest bvh queries[i]).hits.map Prod.fst) <;> rfl

theorem nearest_second_body_distances {Box Spatial Geometry : Type}
    (T : TreeTraversal Box Spatial Geometry) (bvh : BVH Box)
    (queries : View (Nearest Geometry)) (offset : View Int) (i : Nat)
    (hi : i < queries.length) (o : Int) (ho : offset.read (i : Int) = some o)
    (s : View Int × View Double) :
    ((queries.read (i : Int)).bind fun query =>
      ((T.nearest bvh query).query (storeIndexAndDistance offset i) (s, 0)).bind
        fun r => some r.1.1)
      = (scatter s.1 o ((nearestHits T bvh queries i).map Prod.fst)).bind fun v1 =>
          (scatter s.2 o ((nearestHits T bvh queries i).map Prod.snd)).map fun d1 =>
            (v1, d1) := by
  obtain ⟨v, d⟩ := s
  simp only [View.read_of_lt queries i hi, Trace.query, nearestHits,
    List.getElem?_eq_getElem hi, Option.some_bind]
  rw [invoke_storeIndexAndDistance offset i o ho, Int.add_zero]
  cases scatter v o ((T.nearest bvh queries[i]).hits.map Prod.fst) with
  | none => rfl
  | some v1 =>
    cases scatter d o ((T.nearest bvh queries[i]).hits.map Prod.snd) <;> rfl

theorem queryDispatchNearest_eq {Box Spatial Geometry : Type} (E : ExecutionSpace)
    (T : TreeTraversal Box Spatial Geometry) (bvh : BVH Box)
    (queries : View (Nearest Geometry)) (indices offset : View Int)
    (distances_ptr : Option (View Double)) :
    queryDispatchNearest E T bvh queries indices offset distances_ptr =
      if (queries.length : Int) + 1 ≤ INT_MAX then
        if (exclusiveScan 0 (nearestK queries ++ [0])).all isInt then
          if 0 ≤ (nearestK queries).sum then
            match distances_ptr with
            | some _ =>
              (parallel_for.loop
                (fun i t => scatter t ((nearestK queries).take i).sum
                  ((nearestHits T bvh queries i).map Prod.fst))
                (E.order "perform_nearest_queries_and_return_distances" queries.length)
                (List.replicate (nearestK queries).sum.toNat (-1))).bind fun ind =>
              (parallel_for.loop
                (fun i t => scatter t ((nearestK queries).take i).sum
                  ((nearestHits T bvh queries i).map Prod.snd))
                (E.order "perform_nearest_queries_and_return_distances" queries.length)
                (List.replicate (nearestK queries).sum.toNat ArithTraits_double_max)).map
                fun dist =>
                  { indices := ind,
                    offset := exclusiveScan 0 (nearestK queries ++ [0]),
                    distances := some dist }
            | none =>
              (parallel_for.loop
                (fun i t => scatter t ((nearestK queries).take i).sum
                  ((nearestHits T bvh queries i).map Prod.fst))
                (E.order "perform_nearest_queries" queries.length)
                (List.replicate (nearestK queries).sum.toNat (-1))).map
                fun ind =>
                  { indices := ind,
                    offset := exclusiveScan 0 (nearestK queries ++ [0]),
                    distances := none }
          else none
        else none
      else none := by
  have hperm1 := E.perm "scan_queries_for_numbers_of_nearest_neighbors" queries.length
  have hperm2 := E.perm "perform_nearest_queries_and_return_distances" queries.length
  have hperm3 := E.perm "perform_nearest_queries" queries.length
  rw [queryDispatchNearest]
  simp only [Option.bind_eq_bind, Option.pure_def]
  by_cases h1 : (queries.length : Int) + 1 ≤ INT_MAX
  · have h2 : (queries.length : Int) ≤ INT_MAX := by omega
    have h3 : isInt ((queries.length : Int) + 1) = true := by
      simp only [isInt, INT_MIN, Bool.and_eq_true, decide_eq_true_eq]
      omega
    have h4 : ((queries.length : Int) + 1).toNat = queries.length + 1 := by omega
    have h5 : queries.extentInt = some (queries.length : Int) := by
      simp only [View.extentInt, h2, if_true]
    have h6 : intAdd (queries.length : Int) 1 = some ((queries.length : Int) + 1) := by
      simp only [intAdd, h3, if_true]
    have h7 : realloc offset ((queries.length : Int) + 1)
        = some (List.replicate (queries.length + 1) 0) := by
      simp only [realloc, show (0 : Int) ≤ (queries.length : Int) + 1 from by omega, if_true, h4]
      rfl
    have h8 : parallel_for E "scan_queries_for_numbers_of_nearest_neighbors"
        (queries.length : Int)
        (fun i (offset : View Int) =>
          (queries.read (i : Int)).bind fun query => offset.write (i : Int) query._k)
        (fill (List.replicate (queries.length + 1) 0) 0)
        = some (nearestK queries ++ [0]) := by
      rw [parallel_for_natCast, fill_replicate, nearestK, ← first_pass queries
        (fun q => q._k) _ hperm1]
    rw [h5, Option.some_bind, h6, Option.some_bind, h7, Option.some_bind, h8, Option.some_bind,
      if_pos h1]
    by_cases h9 : (exclusiveScan 0 (nearestK queries ++ [0])).all isInt = true
    · have h10 : exclusivePrefixSum (nearestK queries ++ [0])
          = some (exclusiveScan 0 (nearestK queries ++ [0])) := by
        simp only [exclusivePrefixSum, h9, if_true]
      rw [h10, Option.some_bind, exclusiveScan_last, Option.some_bind, if_pos h9]
      by_cases h11 : 0 ≤ (nearestK queries).sum
      · have h12 : realloc indices (nearestK queries).sum
            = some (List.replicate (nearestK queries).sum.toNat 0) := by
          simp only [realloc, h11, if_true]
          rfl
        rw [h12, Option.some_bind, if_pos h11, fill_replicate]
        have hread : ∀ i ∈ List.range queries.length,
            (exclusiveScan 0 (nearestK queries ++ [0])).read (i : Int)
              = some ((nearestK queries).take i).sum := fun i hi =>
          exclusiveScan_read (nearestK queries) i
            (by simp only [nearestK, List.length_map]; exact le_of_lt (List.mem_range.mp hi))
        cases distances_ptr with
        | none =>
          simp only []
          rw [parallel_for_natCast]
          have h13 := loop_congr
            (f := fun i (indices : View Int) =>
              (queries.read (i : Int)).bind fun query =>
                ((T.nearest bvh query).query
                  (fun hit => storeIndex (exclusiveScan 0 (nearestK queries ++ [0])) i hit.1)
                  (indices, 0)).bind fun r => some r.1.1)
            (g := fun i t => scatter t ((nearestK queries).take i).sum
              ((nearestHits T bvh queries i).map Prod.fst))
            (E.order "perform_nearest_queries" queries.length)
            (List.replicate (nearestK queries).sum.toNat (-1))
            (fun i hi t => nearest_second_body T bvh queries _ i (mem_order hperm3 hi) _
              (hread i (hperm3.subset hi)) t)
          rw [h13]
          cases parallel_for.loop (fun i t => scatter t ((nearestK queries).take i).sum
              ((nearestHits T bvh queries i).map Prod.fst))
              (E.order "perform_nearest_queries" queries.length)
              (List.replicate (nearestK queries).sum.toNat (-1)) <;> rfl
        | some distances =>
          have h14 : realloc distances (nearestK queries).sum
              = some (List.replicate (nearestK queries).sum.toNat default) := by
            simp only [realloc, h11, if_true]
          simp only []
          rw [h14, Option.some_bind, fill_replicate, parallel_for_natCast]
          have h13 := loop_congr
            (f := fun i (s : View Int × View Double) =>
              (queries.read (i : Int)).bind fun query =>
                ((T.nearest bvh query).query
                  (storeIndexAndDistance (exclusiveScan 0 (nearestK queries ++ [0])) i)
                  (s, 0)).bind fun r => some r.1.1)
            (g := fun i (s : View Int × View Double) =>
              (scatter s.1 ((nearestK queries).take i).sum
                ((nearestHits T bvh queries i).map Prod.fst)).bind fun v1 =>
              (scatter s.2 ((nearestK queries).take i).sum
                ((nearestHits T bvh queries i).map Prod.snd)).map fun d1 => (v1, d1))
            (E.order "perform_nearest_queries_and_return_distances" queries.length)
            (List.replicate (nearestK queries).sum.toNat (-1),
              List.replicate (nearestK queries).sum.toNat ArithTraits_double_max)
            (fun i hi t => nearest_second_body_distances T bvh queries _ i
              (mem_order hperm2 hi) _ (hread i (hperm2.subset hi)) t)
          rw [h13, loop_pair
            (fun i t => scatter t ((nearestK queries).take i).sum
              ((nearestHits T bvh queries i).map Prod.fst))
            (fun i t => scatter t ((nearestK queries).take i).sum
              ((nearestHits T bvh queries i).map Prod.snd))]
          cases parallel_for.loop (fun i t => scatter t ((nearestK queries).take i).sum
              ((nearestHits T bvh queries i).map Prod.fst))
              (E.order "perform_nearest_queries_and_return_distances" queries.length)
              (List.replicate (nearestK queries).sum.toNat (-1)) with
          | none => rfl
          | some ind =>
            simp only [Option.some_bind]
            cases parallel_for.loop (fun i t => scatter t ((nearestK queries).take i).sum
              ((nearestHits T bvh queries i).map Prod.snd))
              (E.order "perform_nearest_queries_and_return_distances" queries.length)
              (List.replicate (nearestK queries).sum.toNat ArithTraits_double_max) <;> rfl
      · have h12 : realloc indices (nearestK queries).sum = none := by
          simp only [realloc, h11, if_false]
        rw [h12, Option.none_bind, if_neg h11]
    · have h10 : exclusivePrefixSum (nearestK queries ++ [0]) = none := by
        simp only [exclusivePrefixSum, h9]
        rfl
      rw [h10, Option.none_bind, if_neg h9]
  · rw [if_neg h1]
    by_cases h2 : (queries.length : Int) ≤ INT_MAX
    · have h5 : queries.extentInt = some (queries.length : Int) := by
        simp only [View.extentInt, h2, if_true]
      have h6 : intAdd (queries.length : Int) 1 = none := by
        have : isInt ((queries.length : Int) + 1) = false := by
          simp only [isInt, Bool.and_eq_false_iff, decide_eq_false_iff_not]
          right; exact h1
        simp only [intAdd, this]
        rfl
      rw [h5, Option.some_bind, h6, Option.none_bind]
    · have h5 : queries.extentInt = none := by
        simp only [View.extentInt, h2, if_false]
      rw [h5, Option.none_bind]

/-! ## The second pass -/

/-- The second pass, whatever the order of its iterations: when query `i` hands
its callback no more hits than the slots `[start i, start (i + 1))` reserved
for it, every hit lands in its slot and every other slot keeps its initial
value. -/
theorem second_pass {α : Type} (cs : List Int) (d : Nat → List α) (order : List Nat)
    (hperm : order.Perm (List.range cs.length)) (hc : ∀ x ∈ cs, 0 ≤ x)
    (hd : ∀ i, i < cs.length →
      (cs.take i).sum + ((d i).length : Int) ≤ (cs.take (i + 1)).sum)
    (init : View α) (hinit : (init.length : Int) = cs.sum) :
    ∃ w, parallel_for.loop (fun i t => scatter t (cs.take i).sum (d i)) order init = some w ∧
      w.length = init.length ∧
      (∀ i, i < cs.length → ∀ j : Nat, j < (d i).length →
        w.read ((cs.take i).sum + (j : Int)) = (d i)[j]?) ∧
      (∀ i, i < cs.length → ∀ j : Nat, (d i).length ≤ j →
        (cs.take i).sum + (j : Int) < (cs.take (i + 1)).sum →
        w.read ((cs.take i).sum + (j : Int)) = init.read ((cs.take i).sum + (j : Int))) := by
  have hmono := take_sum_mono cs hc
  obtain ⟨w, hw, hwl, hin, hout⟩ := loop_scatter (fun i => (cs.take i).sum) d order init
    (order_nodup hperm)
    (fun i hi => by
      have hlt := mem_order hperm hi
      have h1 := hd i hlt
      have h2 := take_sum_le_sum cs hc (i + 1)
      have h3 := take_sum_nonneg cs hc i
      constructor
      · exact h3
      · simp only []
        omega)
    (fun i hi j hj hij => by
      have hi1 := hd i (mem_order hperm hi)
      have hj1 := hd j (mem_order hperm hj)
      simp only []
      rcases Nat.lt_or_gt_of_ne hij with h | h
      · left
        have := hmono (i + 1) j h
        omega
      · right
        have := hmono (j + 1) i h
        omega)
  refine ⟨w, hw, hwl, fun i hi j hj => hin i (mem_order_of_lt hperm hi) j hj, ?_⟩
  intro i hi j hj hlt
  apply hout
  intro m hm
  have hm1 := hd m (mem_order hperm hm)
  rcases Nat.lt_trichotomy m i with h | h | h
  · right
    have := hmono (m + 1) i h
    omega
  · subst h
    right
    omega
  · left
    have := hmono (i + 1) m h
    omega

/-! ## Offsets -/

theorem isInt_le {x : Int} (h : isInt x = true) : x ≤ INT_MAX := by
  simp only [isInt, Bool.and_eq_true, decide_eq_true_eq] at h
  exact h.2

theorem sum_le_of_all_isInt (cs : List Int)
    (h : (exclusiveScan 0 (cs ++ [0])).all isInt = true) : cs.sum ≤ INT_MAX := by
  have hlast := exclusiveScan_last cs
  rw [lastElement] at hlast
  have hmem : cs.sum ∈ exclusiveScan 0 (cs ++ [0]) := List.mem_of_getLast?_eq_some hlast
  exact isInt_le (List.all_eq_true.mp h cs.sum hmem)

/-- The offsets after the exclusive prefix sum of the counts `cs` followed by
the final zero. -/
theorem offsets_spec (cs : List Int) :
    (exclusiveScan 0 (cs ++ [0])).length = cs.length + 1 ∧
    (exclusiveScan 0 (cs ++ [0])).read 0 = some 0 ∧
    (exclusiveScan 0 (cs ++ [0])).read (cs.length : Int) = some cs.sum ∧
    ∀ (i : Nat) (hi : i < cs.length),
      (exclusiveScan 0 (cs ++ [0])).read (i : Int) = some (cs.take i).sum ∧
      (exclusiveScan 0 (cs ++ [0])).read ((i : Int) + 1) = some ((cs.take i).sum + cs[i]) := by
  refine ⟨by simp [exclusiveScan_length], ?_, ?_, ?_⟩
  · simpa using exclusiveScan_read cs 0 (Nat.zero_le _)
  · simpa using exclusiveScan_read cs cs.length (le_refl _)
  · intro i hi
    refine ⟨exclusiveScan_read cs i (le_of_lt hi), ?_⟩
    have h := exclusiveScan_read cs (i + 1) hi
    rw [take_sum_succ cs i hi] at h
    simpa using h

theorem spatialCounts_length {Box Spatial Geometry : Type}
    (T : TreeTraversal Box Spatial Geometry) (bvh : BVH Box) (queries : View Spatial) :
    (spatialCounts T bvh queries).length = queries.length := by
  simp [spatialCounts]

theorem spatialCounts_getElem {Box Spatial Geometry : Type}
    (T : TreeTraversal Box Spatial Geometry) (bvh : BVH Box) (queries : View Spatial)
    (i : Nat) (hi : i < queries.length) (hc : i < (spatialCounts T bvh queries).length) :
    (spatialCounts T bvh queries)[i] = (T.spatial bvh queries[i]).count := by
  simp [spatialCounts]

theorem spatialHits_of_lt {Box Spatial Geometry : Type}
    (T : TreeTraversal Box Spatial Geometry) (bvh : BVH Box) (queries : View Spatial)
    (i : Nat) (hi : i < queries.length) :
    spatialHits T bvh queries i = (T.spatial bvh queries[i]).hits := by
  simp [spatialHits, List.getElem?_eq_getElem hi]

theorem nearestK_length {Geometry : Type} (queries : View (Nearest Geometry)) :
    (nearestK queries).length = queries.length := by
  simp [nearestK]

theorem nearestK_getElem {Geometry : Type} (queries : View (Nearest Geometry))
    (i : Nat) (hi : i < queries.length) (hc : i < (nearestK queries).length) :
    (nearestK queries)[i] = queries[i]._k := by
  simp [nearestK]

theorem nearestHits_of_lt {Box Spatial Geometry : Type}
    (T : TreeTraversal Box Spatial Geometry) (bvh : BVH Box)
    (queries : View (Nearest Geometry)) (i : Nat) (hi : i < queries.length) :
    nearestHits T bvh queries i = (T.nearest bvh queries[i]).hits := by
  simp [nearestHits, List.getElem?_eq_getElem hi]

/-- What a completed spatial dispatch tells about its run. -/
theorem queryDispatchSpatial_inv {Box Spatial Geometry : Type} {E : ExecutionSpace}
    {T : TreeTraversal Box Spatial Geometry} {bvh : BVH Box} {queries : View Spatial}
    {indices offset : View Int} {out : Views}
    (h : queryDispatchSpatial E T bvh queries indices offset = some out) :
    (queries.length : Int) + 1 ≤ INT_MAX ∧
    (spatialCounts T bvh queries).sum ≤ INT_MAX ∧
    0 ≤ (spatialCounts T bvh queries).sum ∧
    out.offset = exclusiveScan 0 (spatialCounts T bvh queries ++ [0]) ∧
    out.distances = none ∧
    parallel_for.loop
      (fun i t => scatter t ((spatialCounts T bvh queries).take i).sum
        (spatialHits T bvh queries i))
      (E.order "second_pass" queries.length)
      (List.replicate (spatialCounts T bvh queries).sum.toNat 0) = some out.indices := by
  rw [queryDispatchSpatial_eq] at h
  split_ifs at h with h1 h2 h3
  obtain ⟨ind, hind, rfl⟩ := Option.map_eq_some'.mp h
  exact ⟨h1, sum_le_of_all_isInt _ h2, h3, rfl, rfl, hind⟩

/-- What a completed nearest dispatch tells about its run. -/
theorem queryDispatchNearest_inv {Box Spatial Geometry : Type} {E : ExecutionSpace}
    {T : TreeTraversal Box Spatial Geometry} {bvh : BVH Box}
    {queries : View (Nearest Geometry)} {indices offset : View Int}
    {distances_ptr : Option (View Double)} {out : Views}
    (h : queryDispatchNearest E T bvh queries indices offset distances_ptr = some out) :
    (queries.length : Int) + 1 ≤ INT_MAX ∧
    (nearestK queries).sum ≤ INT_MAX ∧
    0 ≤ (nearestK queries).sum ∧
    out.offset = exclusiveScan 0 (nearestK queries ++ [0]) := by
  rw [queryDispatchNearest_eq] at h
  split_ifs at h with h1 h2 h3
  refine ⟨h1, sum_le_of_all_isInt _ h2, h3, ?_⟩
  cases distances_ptr with
  | none =>
    obtain ⟨ind, _, rfl⟩ := Option.map_eq_some'.mp h
    rfl
  | some distances =>
    simp only [Option.bind_eq_some, Option.map_eq_some'] at h
    obtain ⟨ind, _, dist, _, rfl⟩ := h
    rfl

/-! ## Complete runs -/

theorem read_replicate {α : Type} (n : Nat) (a : α) (p : Int) (h0 : 0 ≤ p) (h1 : p < (n : Int)) :
    View.read (List.replicate n a) p = some a := by
  have : p.toNat < n := by omega
  simp [View.read, h0, List.getElem?_replicate, this]

/-- The spatial dispatcher completes when the traversal returns the number of
hits it reports and the sizes fit an `int`; the indices are then the hits of
the queries, each at its offset. -/
theorem queryDispatchSpatial_run {Box Spatial Geometry : Type} (E : ExecutionSpace)
    (T : TreeTraversal Box Spatial Geometry) (bvh : BVH Box) (queries : View Spatial)
    (indices offset : View Int)
    (hcount : ∀ q ∈ queries, (T.spatial bvh q).count = ((T.spatial bvh q).hits.length : Int))
    (hQ : (queries.length : Int) < INT_MAX)
    (hsum : (spatialCounts T bvh queries).sum ≤ INT_MAX) :
    ∃ ind : View Int,
      queryDispatchSpatial E T bvh queries indices offset
        = some { indices := ind,
                 offset := exclusiveScan 0 (spatialCounts T bvh queries ++ [0]),
                 distances := none } ∧
      (ind.length : Int) = (spatialCounts T bvh queries).sum ∧
      ∀ (i : Nat) (hi : i < queries.length) (j : Nat)
        (hj : j < (T.spatial bvh queries[i]).hits.length),
        ind.read (((spatialCounts T bvh queries).take i).sum + (j : Int))
          = some (T.spatial bvh queries[i]).hits[j] := by
  have hc : ∀ x ∈ spatialCounts T bvh queries, 0 ≤ x := by
    intro x hx
    obtain ⟨q, hq, rfl⟩ := List.mem_map.mp hx
    rw [hcount q hq]
    exact Int.ofNat_nonneg _
  have h0 : 0 ≤ (spatialCounts T bvh queries).sum := List.sum_nonneg hc
  have hlen : ((List.replicate (spatialCounts T bvh queries).sum.toNat (0 : Int)).length : Int)
      = (spatialCounts T bvh queries).sum := by
    rw [List.length_replicate]; omega
  obtain ⟨w, hw, hwl, hin, _⟩ := second_pass (spatialCounts T bvh queries)
    (spatialHits T bvh queries) (E.order "second_pass" queries.length)
    (by rw [spatialCounts_length]; exact E.perm _ _) hc
    (fun i hi => by
      have hi1 : i < queries.length := by rwa [spatialCounts_length] at hi
      rw [take_sum_succ _ i hi, spatialCounts_getElem T bvh queries i hi1 hi,
        spatialHits_of_lt T bvh queries i hi1, hcount _ (List.getElem_mem hi1)])
    (List.replicate (spatialCounts T bvh queries).sum.toNat 0) hlen
  refine ⟨w, ?_, ?_, ?_⟩
  · rw [queryDispatchSpatial_eq, if_pos (by omega), if_pos (exclusiveScan_all_isInt _ hc hsum), if_pos h0,
      hw]
    rfl
  · rw [hwl, hlen]
  · intro i hi j hj
    have h := hin i (by rw [spatialCounts_length]; exact hi) j
      (by rw [spatialHits_of_lt T bvh queries i hi]; exact hj)
    rw [h]
    simp only [spatialHits_of_lt T bvh queries i hi]
    exact List.getElem?_eq_getElem hj

/-- One second pass of the nearest dispatcher on a view filled with a sentinel:
the projected hits land at their offsets, the surplus slots keep the
sentinel. -/
theorem nearest_pass {Box Spatial Geometry α : Type}
    (T : TreeTraversal Box Spatial Geometry) (bvh : BVH Box)
    (queries : View (Nearest Geometry)) (proj : Int × Double → α) (sentinel : α)
    (order : List Nat) (hperm : order.Perm (List.range queries.length))
    (hk : ∀ q ∈ queries, 0 ≤ q._k ∧ ((T.nearest bvh q).hits.length : Int) ≤ q._k) :
    ∃ w : View α,
      parallel_for.loop
        (fun i t => scatter t ((nearestK queries).take i).sum
          ((nearestHits T bvh queries i).map proj))
        order (List.replicate (nearestK queries).sum.toNat sentinel) = some w ∧
      (w.length : Int) = (nearestK queries).sum ∧
      (∀ (i : Nat) (hi : i < queries.length) (j : Nat)
        (hj : j < (T.nearest bvh queries[i]).hits.length),
        w.read (((nearestK queries).take i).sum + (j : Int))
          = some (proj (T.nearest bvh queries[i]).hits[j])) ∧
      (∀ (i : Nat) (hi : i < queries.length) (j : Nat),
        (T.nearest bvh queries[i]).hits.length ≤ j → (j : Int) < queries[i]._k →
        w.read (((nearestK queries).take i).sum + (j : Int)) = some sentinel) := by
  have hc : ∀ x ∈ nearestK queries, 0 ≤ x := by
    intro x hx
    obtain ⟨q, hq, rfl⟩ := List.mem_map.mp hx
    exact (hk q hq).1
  have h0 : 0 ≤ (nearestK queries).sum := List.sum_nonneg hc
  have hlen : ((List.replicate (nearestK queries).sum.toNat sentinel).length : Int)
      = (nearestK queries).sum := by
    rw [List.length_replicate]; omega
  obtain ⟨w, hw, hwl, hin, hout⟩ := second_pass (nearestK queries)
    (fun i => (nearestHits T bvh queries i).map proj) order
    (by rw [nearestK_length]; exact hperm) hc
    (fun i hi => by
      have hi1 : i < queries.length := by rwa [nearestK_length] at hi
      have := (hk _ (List.getElem_mem hi1)).2
      rw [take_sum_succ _ i hi, nearestK_getElem queries i hi1 hi, List.length_map,
        nearestHits_of_lt T bvh queries i hi1]
      omega)
    (List.replicate (nearestK queries).sum.toNat sentinel) hlen
  refine ⟨w, hw, by rw [hwl, hlen], ?_, ?_⟩
  · intro i hi j hj
    have h := hin i (by rw [nearestK_length]; exact hi) j
      (by rw [List.length_map, nearestHits_of_lt T bvh queries i hi]; exact hj)
    rw [h]
    simp only [nearestHits_of_lt T bvh queries i hi, List.getElem?_map,
      List.getElem?_eq_getElem hj, Option.map_some']
  · intro i hi j hj hjk
    have hi2 : i < (nearestK queries).length := by rw [nearestK_length]; exact hi
    have hstep := take_sum_succ (nearestK queries) i hi2
    rw [nearestK_getElem queries i hi hi2] at hstep
    have hle := take_sum_le_sum (nearestK queries) hc (i + 1)
    have hge := take_sum_nonneg (nearestK queries) hc i
    have h := hout i hi2 j
      (by rw [List.length_map, nearestHits_of_lt T bvh queries i hi]; exact hj)
      (by rw [hstep]; omega)
    rw [h]
    exact read_replicate _ _ _ (by omega) (by omega)

/-- The nearest dispatcher completes when every `k` is nonnegative, no query
reports more than `k` hits and the sizes fit an `int`; the indices (and the
distances, when requested) are then the hits of the queries, each at its
offset, and the surplus slots keep their sentinel. -/
theorem queryDispatchNearest_run {Box Spatial Geometry : Type} (E : ExecutionSpace)
    (T : TreeTraversal Box Spatial Geometry) (bvh : BVH Box)
    (queries : View (Nearest Geometry)) (indices offset : View Int)
    (distances_ptr : Option (View Double))
    (hk : ∀ q ∈ queries, 0 ≤ q._k ∧ ((T.nearest bvh q).hits.length : Int) ≤ q._k)
    (hQ : (queries.length : Int) < INT_MAX)
    (hsum : (nearestK queries).sum ≤ INT_MAX) :
    ∃ (ind : View Int) (dist : Option (View Double)),
      queryDispatchNearest E T bvh queries indices offset distances_ptr
        = some (Views.mk ind (exclusiveScan 0 (nearestK queries ++ [0])) dist) ∧
      (ind.length : Int) = (nearestK queries).sum ∧
      (∀ (i : Nat) (hi : i < queries.length) (j : Nat)
        (hj : j < (T.nearest bvh queries[i]).hits.length),
        ind.read (((nearestK queries).take i).sum + (j : Int))
          = some (T.nearest bvh queries[i]).hits[j].1) ∧
      (∀ (i : Nat) (hi : i < queries.length) (j : Nat),
        (T.nearest bvh queries[i]).hits.length ≤ j → (j : Int) < queries[i]._k →
        ind.read (((nearestK queries).take i).sum + (j : Int)) = some (-1)) ∧
      (distances_ptr = none → dist = none) ∧
      (distances_ptr ≠ none → ∃ dv : View Double, dist = some dv ∧
        (dv.length : Int) = (nearestK queries).sum ∧
        (∀ (i : Nat) (hi : i < queries.length) (j : Nat)
          (hj : j < (T.nearest bvh queries[i]).hits.length),
          dv.read (((nearestK queries).take i).sum + (j : Int))
            = some (T.nearest bvh queries[i]).hits[j].2) ∧
        (∀ (i : Nat) (hi : i < queries.length) (j : Nat),
          (T.nearest bvh queries[i]).hits.length ≤ j → (j : Int) < queries[i]._k →
          dv.read (((nearestK queries).take i).sum + (j : Int))
            = some ArithTraits_double_max)) := by
  have hc : ∀ x ∈ nearestK queries, 0 ≤ x := by
    intro x hx
    obtain ⟨q, hq, rfl⟩ := List.mem_map.mp hx
    exact (hk q hq).1
  have h0 : 0 ≤ (nearestK queries).sum := List.sum_nonneg hc
  rw [queryDispatchNearest_eq, if_pos (by omega), if_pos (exclusiveScan_all_isInt _ hc hsum), if_pos h0]
  cases distances_ptr with
  | none =>
    obtain ⟨w, hw, hwl, hin, hout⟩ := nearest_pass T bvh queries Prod.fst (-1)
      (E.order "perform_nearest_queries" queries.length) (E.perm _ _) hk
    refine ⟨w, none, ?_, hwl, hin, hout, fun _ => rfl, fun h => absurd rfl h⟩
    simp only [hw, Option.map_some']
  | some distances =>
    obtain ⟨w, hw, hwl, hin, hout⟩ := nearest_pass T bvh queries Prod.fst (-1)
      (E.order "perform_nearest_queries_and_return_distances" queries.length) (E.perm _ _) hk
    obtain ⟨v, hv, hvl, hvin, hvout⟩ := nearest_pass T bvh queries Prod.snd
      ArithTraits_double_max
      (E.order "perform_nearest_queries_and_return_distances" queries.length) (E.perm _ _) hk
    refine ⟨w, some v, ?_, hwl, hin, hout, (fun h => Option.noConfusion h),
      fun _ => ⟨v, rfl, hvl, hvin, hvout⟩⟩
    simp only [hw, hv, Option.some_bind, Option.map_some']

/-! ## Runs without hits -/

theorem loop_no_hits {α : Type} (s : Nat → Int) (d : Nat → List α) :
    ∀ (order : List Nat) (v : View α), (∀ i ∈ order, d i = []) →
      parallel_for.loop (fun i t => scatter t (s i) (d i)) order v = some v := by
  intro order
  induction order with
  | nil => intro v _; rfl
  | cons i rest ih =>
    intro v h
    simp only [parallel_for.loop, h i (List.mem_cons_self i rest), scatter, Option.some_bind]
    exact ih v (fun j hj => h j (List.mem_cons_of_mem i hj))

theorem exclusiveScan_replicate_zero (n : Nat) :
    exclusiveScan 0 (List.replicate n 0) = List.replicate n 0 := by
  induction n with
  | zero => rfl
  | succ n ih => simp [List.replicate_succ, exclusiveScan, ih]

/-- The nearest dispatcher on a batch for which the traversal reports no hit:
it completes as soon as the prefix sums of the `k` fit an `int` and their
total is nonnegative, whatever the signs of the `k`. -/
theorem queryDispatchNearest_no_hits {Box Spatial Geometry : Type} (E : ExecutionSpace)
    (T : TreeTraversal Box Spatial Geometry) (bvh : BVH Box)
    (queries : View (Nearest Geometry)) (indices offset : View Int)
    (hhits : ∀ q ∈ queries, (T.nearest bvh q).hits = [])
    (hQ : (queries.length : Int) < INT_MAX)
    (hfit : (exclusiveScan 0 (nearestK queries ++ [0])).all isInt = true)
    (hsum : 0 ≤ (nearestK queries).sum) :
    queryDispatchNearest E T bvh queries indices offset none
      = some (Views.mk (List.replicate (nearestK queries).sum.toNat (-1))
          (exclusiveScan 0 (nearestK queries ++ [0])) none) := by
  rw [queryDispatchNearest_eq, if_pos (by omega), if_pos hfit, if_pos hsum]
  simp only []
  rw [loop_no_hits]
  · rfl
  · intro i hi
    have hlt := mem_order (E.perm _ _) hi
    rw [nearestHits_of_lt T bvh queries i hlt, hhits _ (List.getElem_mem hlt)]
    rfl

theorem BVH.query_spatial {Box Spatial Geometry : Type} (E : ExecutionSpace)
    (T : TreeTraversal Box Spatial Geometry) (bvh : BVH Box) (queries : View Spatial)
    (indices offset : View Int) :
    bvh.query E T (Queries.SpatialPredicateTag queries) indices offset
      = queryDispatchSpatial E T bvh queries indices offset := rfl

theorem BVH.query_nearest {Box Spatial Geometry : Type} (E : ExecutionSpace)
    (T : TreeTraversal Box Spatial Geometry) (bvh : BVH Box)
    (queries : View (Nearest Geometry)) (indices offset : View Int) :
    bvh.query E T (Queries.NearestPredicateTag queries) indices offset
      = queryDispatchNearest E T bvh queries indices offset none := rfl

/-! ## The claims on the spatial dispatcher -/

/-- C1: for every tree and every batch of Q spatial queries, whenever
`BVH::query` returns, the offset view has length Q+1, `offset[0] = 0`, and
`offset[i+1] - offset[i]` is the count that the count-only traversal returns
for query `i`, for every `i < Q`.  It does return when Q+1 and the total of
the counts fit an `int` and the traversal returns the number of hits it
reports. -/
theorem query_spatial_offset {Box Spatial Geometry : Type} (E : ExecutionSpace)
    (T : TreeTraversal Box Spatial Geometry) (bvh : BVH Box) (queries : View Spatial)
    (indices offset : View Int) :
    (∀ out : Views,
      bvh.query E T (Queries.SpatialPredicateTag queries) indices offset = some out →
      out.offset.length = queries.length + 1 ∧
      out.offset.read 0 = some 0 ∧
      ∀ (i : Nat) (hi : i < queries.length), ∃ a b : Int,
        out.offset.read (i : Int) = some a ∧ out.offset.read ((i : Int) + 1) = some b ∧
        b - a = (T.spatial bvh queries[i]).count) ∧
    ((queries.length : Int) < INT_MAX →
      (∀ q ∈ queries, (T.spatial bvh q).count = ((T.spatial bvh q).hits.length : Int)) →
      (queries.map fun q => (T.spatial bvh q).count).sum ≤ INT_MAX →
      ∃ out : Views,
        bvh.query E T (Queries.SpatialPredicateTag queries) indices offset = some out) := by
  constructor
  · intro out h
    obtain ⟨_, _, _, hoff, _, _⟩ := queryDispatchSpatial_inv h
    obtain ⟨hlen, hzero, _, hstep⟩ := offsets_spec (spatialCounts T bvh queries)
    rw [hoff]
    refine ⟨by rw [hlen, spatialCounts_length], hzero, ?_⟩
    intro i hi
    have hi1 : i < (spatialCounts T bvh queries).length := by
      rw [spatialCounts_length]; exact hi
    refine ⟨_, _, (hstep i hi1).1, (hstep i hi1).2, ?_⟩
    rw [spatialCounts_getElem T bvh queries i hi hi1]
    omega
  · intro hQ hcount hsum
    obtain ⟨ind, hind, _⟩ :=
      queryDispatchSpatial_run E T bvh queries indices offset hcount hQ hsum
    exact ⟨_, hind⟩

/-- C1 on a concrete batch: three intervals against the tree of three boxes,
iterations in decreasing order, output views that held other data. -/
theorem query_spatial_offset_witness :
    threeTree.query Reversed bruteForce (Queries.SpatialPredicateTag spatialBatch) [7] [7, 7]
      = some { indices := [1, 2, 1, 2, 0], offset := [0, 2, 2, 5], distances := none } ∧
    (([0, 2, 2, 5] : View Int).length = spatialBatch.length + 1 ∧
      View.read ([0, 2, 2, 5] : View Int) 0 = some 0 ∧
      ∀ (i : Nat) (hi : i < spatialBatch.length), ∃ a b : Int,
        View.read ([0, 2, 2, 5] : View Int) (i : Int) = some a ∧
        View.read ([0, 2, 2, 5] : View Int) ((i : Int) + 1) = some b ∧
        b - a = (bruteForce.spatial threeTree spatialBatch[i]).count) ∧
    (∃ out : Views,
      threeTree.query Reversed bruteForce (Queries.SpatialPredicateTag spatialBatch) [7] [7, 7]
        = some out) :=
  ⟨by decide,
   (query_spatial_offset Reversed bruteForce threeTree spatialBatch [7] [7, 7]).1
      { indices := [1, 2, 1, 2, 0], offset := [0, 2, 2, 5], distances := none } (by decide),
   (query_spatial_offset Reversed bruteForce threeTree spatialBatch [7] [7, 7]).2
      (by decide) (by decide) (by decide)⟩

/-- C2: for every tree and every batch of Q spatial queries whose traversal
returns the number of hits it reports (the same hits in both passes: the
traversal is a function of the tree and the query), whenever `BVH::query`
returns, the indices view has length `offset[Q]`, the slice `[offset[i],
offset[i+1])` of indices holds the hits of query `i` in the order of their
report, `indices[offset[i] + j] = h_i[j]`, and every slot of indices lies in
such a slice, so every slot is written.  It does return when Q+1 and the
total of the counts fit an `int`. -/
theorem query_spatial_indices {Box Spatial Geometry : Type} (E : ExecutionSpace)
    (T : TreeTraversal Box Spatial Geometry) (bvh : BVH Box) (queries : View Spatial)
    (indices offset : View Int)
    (hcount : ∀ q ∈ queries, (T.spatial bvh q).count = ((T.spatial bvh q).hits.length : Int)) :
    (∀ out : Views,
      bvh.query E T (Queries.SpatialPredicateTag queries) indices offset = some out →
      out.offset.read (queries.length : Int) = some (out.indices.length : Int) ∧
      (∀ (i : Nat) (hi : i < queries.length), ∃ a : Int,
        out.offset.read (i : Int) = some a ∧
        out.offset.read ((i : Int) + 1)
          = some (a + ((T.spatial bvh queries[i]).hits.length : Int)) ∧
        ∀ (j : Nat) (hj : j < (T.spatial bvh queries[i]).hits.length),
          out.indices.read (a + (j : Int)) = some (T.spatial bvh queries[i]).hits[j]) ∧
      (∀ p : Nat, p < out.indices.length →
        ∃ (i : Nat) (hi : i < queries.length) (a : Int),
          out.offset.read (i : Int) = some a ∧ a ≤ (p : Int) ∧
          (p : Int) < a + ((T.spatial bvh queries[i]).hits.length : Int))) ∧
    ((queries.length : Int) < INT_MAX →
      (queries.map fun q => (T.spatial bvh q).count).sum ≤ INT_MAX →
      ∃ out : Views,
        bvh.query E T (Queries.SpatialPredicateTag queries) indices offset = some out) := by
  constructor
  · intro out h
    obtain ⟨hQ, hsum, _, hoff, _, _⟩ := queryDispatchSpatial_inv h
    obtain ⟨ind, hind, hlen, hhits⟩ :=
      queryDispatchSpatial_run E T bvh queries indices offset hcount (by omega) hsum
    have hout : out = Views.mk ind (exclusiveScan 0 (spatialCounts T bvh queries ++ [0])) none :=
      Option.some.inj (h.symm.trans hind)
    subst hout
    obtain ⟨_, _, hlast, hstep⟩ := offsets_spec (spatialCounts T bvh queries)
    have hc : ∀ x ∈ spatialCounts T bvh queries, 0 ≤ x := by
      intro x hx
      obtain ⟨q, hq, rfl⟩ := List.mem_map.mp hx
      rw [hcount q hq]
      exact Int.ofNat_nonneg _
    refine ⟨?_, ?_, ?_⟩
    · have := hlast
      rw [spatialCounts_length] at this
      simp only [this, hlen]
    · intro i hi
      have hi1 : i < (spatialCounts T bvh queries).length := by
        rw [spatialCounts_length]; exact hi
      refine ⟨_, (hstep i hi1).1, ?_, fun j hj => hhits i hi j hj⟩
      have := (hstep i hi1).2
      rw [spatialCounts_getElem T bvh queries i hi hi1, hcount _ (List.getElem_mem hi)] at this
      exact this
    · intro p hp
      obtain ⟨i, hi1, h1, h2⟩ := exists_range_of_lt_sum (spatialCounts T bvh queries) hc
        (p : Int) (Int.ofNat_nonneg _) (by rw [← hlen]; exact Int.ofNat_lt.mpr hp)
      have hi : i < queries.length := by rwa [spatialCounts_length] at hi1
      refine ⟨i, hi, _, (hstep i hi1).1, h1, ?_⟩
      rw [spatialCounts_getElem T bvh queries i hi hi1, hcount _ (List.getElem_mem hi)] at h2
      exact h2
  · intro hQ hsum
    obtain ⟨ind, hind, _⟩ :=
      queryDispatchSpatial_run E T bvh queries indices offset hcount hQ hsum
    exact ⟨_, hind⟩

/-- C2 on a concrete batch: three intervals against the tree of three boxes,
iterations in decreasing order. -/
theorem query_spatial_indices_witness :
    (∀ q ∈ spatialBatch, (bruteForce.spatial threeTree q).count
      = ((bruteForce.spatial threeTree q).hits.length : Int)) ∧
    threeTree.query Reversed bruteForce (Queries.SpatialPredicateTag spatialBatch) [] []
      = some { indices := [1, 2, 1, 2, 0], offset := [0, 2, 2, 5], distances := none } ∧
    (View.read ([0, 2, 2, 5] : View Int) (spatialBatch.length : Int)
        = some (([1, 2, 1, 2, 0] : View Int).length : Int) ∧
      (∀ (i : Nat) (hi : i < spatialBatch.length), ∃ a : Int,
        View.read ([0, 2, 2, 5] : View Int) (i : Int) = some a ∧
        View.read ([0, 2, 2, 5] : View Int) ((i : Int) + 1)
          = some (a + ((bruteForce.spatial threeTree spatialBatch[i]).hits.length : Int)) ∧
        ∀ (j : Nat) (hj : j < (bruteForce.spatial threeTree spatialBatch[i]).hits.length),
          View.read ([1, 2, 1, 2, 0] : View Int) (a + (j : Int))
            = some (bruteForce.spatial threeTree spatialBatch[i]).hits[j]) ∧
      (∀ p : Nat, p < ([1, 2, 1, 2, 0] : View Int).length →
        ∃ (i : Nat) (hi : i < spatialBatch.length) (a : Int),
          View.read ([0, 2, 2, 5] : View Int) (i : Int) = some a ∧ a ≤ (p : Int) ∧
          (p : Int) < a + ((bruteForce.spatial threeTree spatialBatch[i]).hits.length : Int))) ∧
    (∃ out : Views,
      threeTree.query Reversed bruteForce (Queries.SpatialPredicateTag spatialBatch) [] []
        = some out) :=
  ⟨by decide, by decide,
   (query_spatial_indices Reversed bruteForce threeTree spatialBatch [] [] (by decide)).1
      { indices := [1, 2, 1, 2, 0], offset := [0, 2, 2, 5], distances := none } (by decide),
   (query_spatial_indices Reversed bruteForce threeTree spatialBatch [] [] (by decide)).2
      (by decide) (by decide)⟩

/-! ## The claims on the nearest dispatcher -/

/-- C3: for every tree, of any size, and every batch of Q nearest queries,
whenever `BVH::query` returns (either overload: both are the nearest
dispatcher, without or with a view of distances), the offset view has length
Q+1, `offset[0] = 0` and `offset[i+1] - offset[i] = queries[i].k` for every
`i < Q`, whatever the traversal reports.  It does return when Q+1 and the
total of the `k` fit an `int`, every `k` is nonnegative and no query reports
more than `k` hits. -/
theorem query_nearest_offset {Box Spatial Geometry : Type} (E : ExecutionSpace)
    (T : TreeTraversal Box Spatial Geometry) (bvh : BVH Box)
    (queries : View (Nearest Geometry)) (indices offset : View Int)
    (distances_ptr : Option (View Double)) :
    (∀ out : Views,
      queryDispatchNearest E T bvh queries indices offset distances_ptr = some out →
      out.offset.length = queries.length + 1 ∧
      out.offset.read 0 = some 0 ∧
      ∀ (i : Nat) (hi : i < queries.length), ∃ a b : Int,
        out.offset.read (i : Int) = some a ∧ out.offset.read ((i : Int) + 1) = some b ∧
        b - a = queries[i]._k) ∧
    ((queries.length : Int) < INT_MAX →
      (∀ q ∈ queries, 0 ≤ q._k ∧ ((T.nearest bvh q).hits.length : Int) ≤ q._k) →
      (queries.map fun q => q._k).sum ≤ INT_MAX →
      ∃ out : Views,
        queryDispatchNearest E T bvh queries indices offset distances_ptr = some out) := by
  constructor
  · intro out h
    obtain ⟨_, _, _, hoff⟩ := queryDispatchNearest_inv h
    obtain ⟨hlen, hzero, _, hstep⟩ := offsets_spec (nearestK queries)
    rw [hoff]
    refine ⟨by rw [hlen, nearestK_length], hzero, ?_⟩
    intro i hi
    have hi1 : i < (nearestK queries).length := by rw [nearestK_length]; exact hi
    refine ⟨_, _, (hstep i hi1).1, (hstep i hi1).2, ?_⟩
    rw [nearestK_getElem queries i hi hi1]
    omega
  · intro hQ hk hsum
    obtain ⟨ind, dist, hrun, _⟩ :=
      queryDispatchNearest_run E T bvh queries indices offset distances_ptr hk hQ hsum
    exact ⟨_, hrun⟩

/-- C3 on a concrete batch: the empty tree, where no query finds a hit, and
the requests for 5, 2 and 0 neighbours. -/
theorem query_nearest_offset_witness :
    queryDispatchNearest Reversed bruteForce emptyTree nearestBatch [7] [7, 7] none
      = some { indices := [-1, -1, -1, -1, -1, -1, -1], offset := [0, 5, 7, 7],
               distances := none } ∧
    (([0, 5, 7, 7] : View Int).length = nearestBatch.length + 1 ∧
      View.read ([0, 5, 7, 7] : View Int) 0 = some 0 ∧
      ∀ (i : Nat) (hi : i < nearestBatch.length), ∃ a b : Int,
        View.read ([0, 5, 7, 7] : View Int) (i : Int) = some a ∧
        View.read ([0, 5, 7, 7] : View Int) ((i : Int) + 1) = some b ∧
        b - a = nearestBatch[i]._k) ∧
    (∃ out : Views,
      queryDispatchNearest Reversed bruteForce emptyTree nearestBatch [7] [7, 7] none
        = some out) :=
  ⟨by decide,
   (query_nearest_offset Reversed bruteForce emptyTree nearestBatch [7] [7, 7] none).1
      { indices := [-1, -1, -1, -1, -1, -1, -1], offset := [0, 5, 7, 7], distances := none }
      (by decide),
   (query_nearest_offset Reversed bruteForce emptyTree nearestBatch [7] [7, 7] none).2
      (by decide) (by decide) (by decide)⟩

/-- C4: for every tree and every batch of nearest queries with `k >= 0` in
which no query reports more than its `k` hits, whenever `BVH::query` returns
(either overload), `indices[offset[i] + j]` is the index of the `j`-th hit
reported for query `i`, for every `j` below the number `m` of its hits, and
`indices[offset[i] + j] = -1` for every `m <= j < queries[i].k`.  It does
return when Q+1 and the total of the `k` fit an `int`. -/
theorem query_nearest_indices {Box Spatial Geometry : Type} (E : ExecutionSpace)
    (T : TreeTraversal Box Spatial Geometry) (bvh : BVH Box)
    (queries : View (Nearest Geometry)) (indices offset : View Int)
    (distances_ptr : Option (View Double))
    (hk : ∀ q ∈ queries, 0 ≤ q._k ∧ ((T.nearest bvh q).hits.length : Int) ≤ q._k) :
    (∀ out : Views,
      queryDispatchNearest E T bvh queries indices offset distances_ptr = some out →
      ∀ (i : Nat) (hi : i < queries.length), ∃ a : Int,
        out.offset.read (i : Int) = some a ∧
        (∀ (j : Nat) (hj : j < (T.nearest bvh queries[i]).hits.length),
          out.indices.read (a + (j : Int)) = some (T.nearest bvh queries[i]).hits[j].1) ∧
        (∀ j : Nat, (T.nearest bvh queries[i]).hits.length ≤ j → (j : Int) < queries[i]._k →
          out.indices.read (a + (j : Int)) = some (-1))) ∧
    ((queries.length : Int) < INT_MAX →
      (queries.map fun q => q._k).sum ≤ INT_MAX →
      ∃ out : Views,
        queryDispatchNearest E T bvh queries indices offset distances_ptr = some out) := by
  constructor
  · intro out h i hi
    obtain ⟨hQ, hsum, _, _⟩ := queryDispatchNearest_inv h
    obtain ⟨ind, dist, hrun, _, hin, hout, _⟩ :=
      queryDispatchNearest_run E T bvh queries indices offset distances_ptr hk (by omega) hsum
    have hout1 : out = Views.mk ind (exclusiveScan 0 (nearestK queries ++ [0])) dist :=
      Option.some.inj (h.symm.trans hrun)
    subst hout1
    obtain ⟨_, _, _, hstep⟩ := offsets_spec (nearestK queries)
    have hi1 : i < (nearestK queries).length := by rw [nearestK_length]; exact hi
    exact ⟨_, (hstep i hi1).1, fun j hj => hin i hi j hj, fun j hj hjk => hout i hi j hj hjk⟩
  · intro hQ hsum
    obtain ⟨ind, dist, hrun, _⟩ :=
      queryDispatchNearest_run E T bvh queries indices offset distances_ptr hk hQ hsum
    exact ⟨_, hrun⟩

/-- C4 on a concrete batch: 5 neighbours requested of a tree of three boxes,
then 2, then 0. -/
theorem query_nearest_indices_witness :
    (∀ q ∈ nearestBatch, 0 ≤ q._k ∧
      ((bruteForce.nearest threeTree q).hits.length : Int) ≤ q._k) ∧
    queryDispatchNearest Reversed bruteForce threeTree nearestBatch [] [] none
      = some { indices := [1, 2, 0, -1, -1, 2, 0], offset := [0, 5, 7, 7],
               distances := none } ∧
    (∀ (i : Nat) (hi : i < nearestBatch.length), ∃ a : Int,
      View.read ([0, 5, 7, 7] : View Int) (i : Int) = some a ∧
      (∀ (j : Nat) (hj : j < (bruteForce.nearest threeTree nearestBatch[i]).hits.length),
        View.read ([1, 2, 0, -1, -1, 2, 0] : View Int) (a + (j : Int))
          = some (bruteForce.nearest threeTree nearestBatch[i]).hits[j].1) ∧
      (∀ j : Nat, (bruteForce.nearest threeTree nearestBatch[i]).hits.length ≤ j →
        (j : Int) < nearestBatch[i]._k →
        View.read ([1, 2, 0, -1, -1, 2, 0] : View Int) (a + (j : Int)) = some (-1))) ∧
    (∃ out : Views,
      queryDispatchNearest Reversed bruteForce threeTree nearestBatch [] [] none = some out) :=
  ⟨by decide, by decide,
   (query_nearest_indices Reversed bruteForce threeTree nearestBatch [] [] none
      (by decide)).1
      { indices := [1, 2, 0, -1, -1, 2, 0], offset := [0, 5, 7, 7], distances := none }
      (by decide),
   (query_nearest_indices Reversed bruteForce threeTree nearestBatch [] [] none
      (by decide)).2 (by decide) (by decide)⟩

/-- C5, the sentinel of the distances: the query of the 5 nearest boxes of a
tree of 3 boxes, through the overload that returns distances.  The three
hits fill the first three slots of indices and distances, the two surplus
slots of distances hold `Kokkos::ArithTraits<double>::max()`, the largest
finite double, which is not positive infinity. -/
theorem query_distances_sentinel :
    threeTree.queryDistances Serial bruteForce [{ _query_point := 0, _k := 5 }] [] [] []
      = some { indices := [1, 2, 0, -1, -1],
               offset := [0, 5],
               distances := some [Double.finite false 0 0, Double.finite false 2 0,
                 Double.finite false 4 0, ArithTraits_double_max, ArithTraits_double_max] } ∧
    ArithTraits_double_max ≠ Double.posInf := by
  decide

/-- C6 as stated fails for nearest queries: the query of the 2 nearest boxes of
the tree of a single box finds one hit, and `offset[Q]` is 2. -/
theorem query_last_offset_counterexample :
    singleTree.query Serial bruteForce
        (Queries.NearestPredicateTag [{ _query_point := 0, _k := 2 }]) [] []
      = some { indices := [0, -1], offset := [0, 2], distances := none } ∧
    (bruteForce.nearest singleTree { _query_point := 0, _k := 2 }).hits.length = 1 ∧
    ¬ (View.read ([0, 2] : View Int) 1
        = some (((bruteForce.nearest singleTree
            { _query_point := 0, _k := 2 }).hits.length : Int))) := by
  decide

/-- C6, amended: whenever `BVH::query` returns, the last offset entry
`offset[Q]` is, for a batch of spatial queries whose traversal returns the
number of hits it reports, the sum over the queries of the number of hits
found, and for a batch of nearest queries the sum of the `k` requested
(the slots reserved, whatever number of hits is found).  It does return when
the sizes fit an `int` and, for nearest queries, every `k` is nonnegative and
no query reports more than `k` hits. -/
theorem query_last_offset {Box Spatial Geometry : Type} (E : ExecutionSpace)
    (T : TreeTraversal Box Spatial Geometry) (bvh : BVH Box)
    (spatial : View Spatial) (nearest : View (Nearest Geometry))
    (indices offset : View Int) :
    ((∀ q ∈ spatial, (T.spatial bvh q).count = ((T.spatial bvh q).hits.length : Int)) →
      (∀ out : Views,
        bvh.query E T (Queries.SpatialPredicateTag spatial) indices offset = some out →
        out.offset.read (spatial.length : Int)
          = some (spatial.map fun q => ((T.spatial bvh q).hits.length : Int)).sum) ∧
      ((spatial.length : Int) < INT_MAX →
        (spatial.map fun q => ((T.spatial bvh q).hits.length : Int)).sum ≤ INT_MAX →
        ∃ out : Views,
          bvh.query E T (Queries.SpatialPredicateTag spatial) indices offset = some out)) ∧
    ((∀ out : Views,
        bvh.query E T (Queries.NearestPredicateTag nearest) indices offset = some out →
        out.offset.read (nearest.length : Int) = some (nearest.map fun q => q._k).sum) ∧
      ((nearest.length : Int) < INT_MAX →
        (∀ q ∈ nearest, 0 ≤ q._k ∧ ((T.nearest bvh q).hits.length : Int) ≤ q._k) →
        (nearest.map fun q => q._k).sum ≤ INT_MAX →
        ∃ out : Views,
          bvh.query E T (Queries.NearestPredicateTag nearest) indices offset = some out)) := by
  refine ⟨fun hcount => ?_, ?_, ?_⟩
  · have hmap : (spatial.map fun q => ((T.spatial bvh q).hits.length : Int))
        = spatialCounts T bvh spatial := by
      rw [spatialCounts]
      exact List.map_congr_left (fun q hq => (hcount q hq).symm)
    rw [hmap]
    constructor
    · intro out h
      obtain ⟨_, _, _, hoff, _, _⟩ := queryDispatchSpatial_inv h
      obtain ⟨_, _, hlast, _⟩ := offsets_spec (spatialCounts T bvh spatial)
      rw [hoff, ← spatialCounts_length T bvh spatial]
      exact hlast
    · intro hQ hsum
      obtain ⟨ind, hind, _⟩ :=
        queryDispatchSpatial_run E T bvh spatial indices offset hcount hQ hsum
      exact ⟨_, hind⟩
  · intro out h
    rw [BVH.query_nearest] at h
    obtain ⟨_, _, _, hoff⟩ := queryDispatchNearest_inv h
    obtain ⟨_, _, hlast, _⟩ := offsets_spec (nearestK nearest)
    rw [hoff, ← nearestK_length nearest]
    exact hlast
  · intro hQ hk hsum
    obtain ⟨ind, dist, hrun, _⟩ :=
      queryDispatchNearest_run E T bvh nearest indices offset none hk hQ hsum
    rw [BVH.query_nearest]
    exact ⟨_, hrun⟩

/-- C6, amended, on concrete batches against the tree of three boxes: the
spatial batch finds 2 + 0 + 3 hits and `offset[3] = 5`; the nearest batch
requests 5 + 2 + 0 neighbours, finds 3 + 2 + 0, and `offset[3] = 7`. -/
theorem query_last_offset_witness :
    (∀ q ∈ spatialBatch, (bruteForce.spatial threeTree q).count
      = ((bruteForce.spatial threeTree q).hits.length : Int)) ∧
    threeTree.query Reversed bruteForce (Queries.SpatialPredicateTag spatialBatch) [] []
      = some { indices := [1, 2, 1, 2, 0], offset := [0, 2, 2, 5], distances := none } ∧
    View.read ([0, 2, 2, 5] : View Int) (spatialBatch.length : Int)
      = some (spatialBatch.map fun q =>
          ((bruteForce.spatial threeTree q).hits.length : Int)).sum ∧
    threeTree.query Reversed bruteForce (Queries.NearestPredicateTag nearestBatch) [] []
      = some { indices := [1, 2, 0, -1, -1, 2, 0], offset := [0, 5, 7, 7],
               distances := none } ∧
    View.read ([0, 5, 7, 7] : View Int) (nearestBatch.length : Int)
      = some (nearestBatch.map fun q => q._k).sum :=
  ⟨by decide, by decide,
   ((query_last_offset Reversed bruteForce threeTree spatialBatch nearestBatch [] []).1
      (by decide)).1
      { indices := [1, 2, 1, 2, 0], offset := [0, 2, 2, 5], distances := none } (by decide),
   by decide,
   (query_last_offset Reversed bruteForce threeTree spatialBatch nearestBatch [] []).2.1
      { indices := [1, 2, 0, -1, -1, 2, 0], offset := [0, 5, 7, 7], distances := none }
      (by decide)⟩

/-! ## The result does not depend on the order of the iterations -/

/-- Two views of the same layout that agree on every slot of every slice are
equal. -/
theorem View.eq_of_layout {α : Type} (cs : List Int) (hc : ∀ x ∈ cs, 0 ≤ x) (v w : View α)
    (hv : (v.length : Int) = cs.sum) (hw : (w.length : Int) = cs.sum)
    (h : ∀ (i : Nat) (hi : i < cs.length) (j : Nat), (j : Int) < cs[i] →
      v.read ((cs.take i).sum + (j : Int)) = w.read ((cs.take i).sum + (j : Int))) :
    v = w := by
  apply View.ext_read
  intro p
  by_cases hp : (p : Int) < cs.sum
  · obtain ⟨i, hi, h1, h2⟩ := exists_range_of_lt_sum cs hc (p : Int) (Int.ofNat_nonneg _) hp
    have hj := h i hi ((p : Int) - (cs.take i).sum).toNat (by omega)
    have e : (cs.take i).sum + ((((p : Int) - (cs.take i).sum).toNat : Nat) : Int) = (p : Int) := by
      omega
    rwa [e] at hj
  · rw [View.read_eq_none_of_le v (by omega), View.read_eq_none_of_le w (by omega)]

/-- The spatial dispatcher has one result, whatever the execution space and the
prior contents of the output views. -/
theorem queryDispatchSpatial_unique {Box Spatial Geometry : Type}
    (T : TreeTraversal Box Spatial Geometry) (bvh : BVH Box) (queries : View Spatial)
    (hcount : ∀ q ∈ queries, (T.spatial bvh q).count = ((T.spatial bvh q).hits.length : Int))
    (hQ : (queries.length : Int) < INT_MAX)
    (hsum : (spatialCounts T bvh queries).sum ≤ INT_MAX) :
    ∃ out : Views, ∀ (E : ExecutionSpace) (indices offset : View Int),
      queryDispatchSpatial E T bvh queries indices offset = some out := by
  have hc : ∀ x ∈ spatialCounts T bvh queries, 0 ≤ x := by
    intro x hx
    obtain ⟨q, hq, rfl⟩ := List.mem_map.mp hx
    rw [hcount q hq]
    exact Int.ofNat_nonneg _
  obtain ⟨ind0, h0, hlen0, hin0⟩ :=
    queryDispatchSpatial_run Serial T bvh queries [] [] hcount hQ hsum
  refine ⟨Views.mk ind0 (exclusiveScan 0 (spatialCounts T bvh queries ++ [0])) none,
    fun E indices offset => ?_⟩
  obtain ⟨ind, h, hlen, hin⟩ :=
    queryDispatchSpatial_run E T bvh queries indices offset hcount hQ hsum
  have heq : ind = ind0 := by
    apply View.eq_of_layout (spatialCounts T bvh queries) hc ind ind0 hlen hlen0
    intro i hi j hj
    have hi1 : i < queries.length := by rwa [spatialCounts_length] at hi
    rw [spatialCounts_getElem T bvh queries i hi1 hi, hcount _ (List.getElem_mem hi1)] at hj
    have hj1 : j < (T.spatial bvh queries[i]).hits.length := Int.ofNat_lt.mp hj
    rw [hin i hi1 j hj1, hin0 i hi1 j hj1]
  rw [h, heq]

/-- The nearest dispatcher has one result, whatever the execution space and the
prior contents of the output views. -/
theorem queryDispatchNearest_unique {Box Spatial Geometry : Type}
    (T : TreeTraversal Box Spatial Geometry) (bvh : BVH Box)
    (queries : View (Nearest Geometry))
    (hk : ∀ q ∈ queries, 0 ≤ q._k ∧ ((T.nearest bvh q).hits.length : Int) ≤ q._k)
    (hQ : (queries.length : Int) < INT_MAX)
    (hsum : (nearestK queries).sum ≤ INT_MAX) :
    ∃ out : Views, ∀ (E : ExecutionSpace) (indices offset : View Int),
      queryDispatchNearest E T bvh queries indices offset none = some out := by
  have hc : ∀ x ∈ nearestK queries, 0 ≤ x := by
    intro x hx
    obtain ⟨q, hq, rfl⟩ := List.mem_map.mp hx
    exact (hk q hq).1
  obtain ⟨ind0, dist0, h0, hlen0, hin0, hout0, hd0, _⟩ :=
    queryDispatchNearest_run Serial T bvh queries [] [] none hk hQ hsum
  refine ⟨Views.mk ind0 (exclusiveScan 0 (nearestK queries ++ [0])) none,
    fun E indices offset => ?_⟩
  obtain ⟨ind, dist, h, hlen, hin, hout, hd, _⟩ :=
    queryDispatchNearest_run E T bvh queries indices offset none hk hQ hsum
  have heq : ind = ind0 := by
    apply View.eq_of_layout (nearestK queries) hc ind ind0 hlen hlen0
    intro i hi j hj
    have hi1 : i < queries.length := by rwa [nearestK_length] at hi
    rw [nearestK_getElem queries i hi1 hi] at hj
    by_cases hj1 : j < (T.nearest bvh queries[i]).hits.length
    · rw [hin i hi1 j hj1, hin0 i hi1 j hj1]
    · rw [hout i hi1 j (Nat.le_of_not_lt hj1) hj, hout0 i hi1 j (Nat.le_of_not_lt hj1) hj]
  rw [h, heq, hd rfl]

/-! ## The empty tree -/

theorem map_eq_replicate_zero {β : Type} (l : List β) (f : β → Int) (h : ∀ x ∈ l, f x = 0) :
    l.map f = List.replicate l.length 0 := by
  induction l with
  | nil => rfl
  | cons x xs ih =>
    rw [List.map_cons, h x (List.mem_cons_self x xs),
      ih (fun y hy => h y (List.mem_cons_of_mem x hy))]
    rfl

theorem sum_replicate_zero (n : Nat) : (List.replicate n (0 : Int)).sum = 0 := by
  simp

theorem exclusiveScan_zeros (n : Nat) :
    exclusiveScan 0 (List.replicate n 0 ++ [0]) = List.replicate (n + 1) 0 := by
  have h : List.replicate n (0 : Int) ++ [0] = List.replicate (n + 1) 0 := by
    rw [List.replicate_succ']
  rw [h, exclusiveScan_replicate_zero]

/-- C7 as stated fails for nearest queries: on the empty tree the query of 2
nearest boxes yields `offset = [0, 2]` and two slots of indices. -/
theorem query_empty_tree_counterexample :
    emptyTree.size = 0 ∧
    emptyTree.query Serial bruteForce
        (Queries.NearestPredicateTag [{ _query_point := 0, _k := 2 }]) [] []
      = some { indices := [-1, -1], offset := [0, 2], distances := none } ∧
    ¬ (([0, 2] : View Int) = List.replicate (1 + 1) 0 ∧ ([-1, -1] : View Int).length = 0) := by
  decide

/-- C7, amended: on the empty tree, where the traversal reports no hit and
returns 0, `BVH::query` signals no error and yields, for every batch of Q
spatial queries (Q+1 an `int`), an offset view of Q+1 zeros and an indices
view of length 0; for every batch of Q nearest queries with `k >= 0` (Q+1
and the total of the `k` an `int`), an offset view of length Q+1 with
`offset[i] = k_0 + ... + k_(i-1)` and an indices view of `offset[Q]` slots
that all hold -1: the offsets are all 0 and indices is empty exactly when
every `k` is 0. -/
theorem query_empty_tree {Box Spatial Geometry : Type} (E : ExecutionSpace)
    (T : TreeTraversal Box Spatial Geometry) (bvh : BVH Box)
    (spatial : View Spatial) (nearest : View (Nearest Geometry))
    (indices offset : View Int)
    (hempty : bvh.size = 0)
    (hS : bvh.size = 0 → ∀ q ∈ spatial,
      (T.spatial bvh q).hits = [] ∧ (T.spatial bvh q).count = 0)
    (hN : bvh.size = 0 → ∀ q ∈ nearest, (T.nearest bvh q).hits = []) :
    ((spatial.length : Int) < INT_MAX →
      bvh.query E T (Queries.SpatialPredicateTag spatial) indices offset
        = some { indices := [], offset := List.replicate (spatial.length + 1) 0,
                 distances := none }) ∧
    ((nearest.length : Int) < INT_MAX →
      (∀ q ∈ nearest, 0 ≤ q._k) →
      (nearest.map fun q => q._k).sum ≤ INT_MAX →
      ∃ out : Views,
        bvh.query E T (Queries.NearestPredicateTag nearest) indices offset = some out ∧
        out.offset.length = nearest.length + 1 ∧
        (∀ i : Nat, i ≤ nearest.length →
          out.offset.read (i : Int) = some ((nearest.map fun q => q._k).take i).sum) ∧
        out.indices
          = List.replicate (nearest.map fun (q : Nearest Geometry) => q._k).sum.toNat (-1) ∧
        (((∀ q ∈ nearest, q._k = 0) →
          out.offset = List.replicate (nearest.length + 1) 0 ∧ out.indices = []) ∧
         ((∃ q ∈ nearest, q._k ≠ 0) → out.indices ≠ []))) := by
  constructor
  · intro hQ
    have hcounts : spatialCounts T bvh spatial = List.replicate spatial.length 0 :=
      map_eq_replicate_zero spatial _ (fun q hq => (hS hempty q hq).2)
    have hc : ∀ x ∈ spatialCounts T bvh spatial, 0 ≤ x := by
      rw [hcounts]
      intro x hx
      rw [List.eq_of_mem_replicate hx]
    have hsum : (spatialCounts T bvh spatial).sum = 0 := by
      rw [hcounts, sum_replicate_zero]
    rw [BVH.query_spatial, queryDispatchSpatial_eq, if_pos (by omega),
      if_pos (exclusiveScan_all_isInt _ hc (by rw [hsum]; decide)), if_pos (by rw [hsum]),
      loop_no_hits]
    · rw [hsum, hcounts, exclusiveScan_zeros]
      rfl
    · intro i hi
      have hlt := mem_order (E.perm _ _) hi
      rw [spatialHits_of_lt T bvh spatial i hlt]
      exact (hS hempty _ (List.getElem_mem hlt)).1
  · intro hQ hk hsum
    have hc : ∀ x ∈ nearestK nearest, 0 ≤ x := by
      intro x hx
      obtain ⟨q, hq, rfl⟩ := List.mem_map.mp hx
      exact hk q hq
    have h0 : 0 ≤ (nearestK nearest).sum := List.sum_nonneg hc
    have hrun := queryDispatchNearest_no_hits E T bvh nearest indices offset (hN hempty) hQ
      (exclusiveScan_all_isInt _ hc hsum) h0
    rw [← BVH.query_nearest] at hrun
    refine ⟨_, hrun, ?_, ?_, rfl, ?_, ?_⟩
    · simp only [exclusiveScan_length, List.length_append, nearestK_length, List.length_singleton]
    · intro i hi
      exact exclusiveScan_read (nearestK nearest) i (by rw [nearestK_length]; exact hi)
    · intro hzero
      have hks : nearestK nearest = List.replicate nearest.length 0 :=
        map_eq_replicate_zero nearest _ hzero
      have hks1 : (nearest.map fun q => q._k) = List.replicate nearest.length 0 := hks
      simp only [hks, hks1, exclusiveScan_zeros, sum_replicate_zero, Int.toNat_zero,
        List.replicate_zero, and_self]
    · intro hne
      obtain ⟨q, hq, hqk⟩ := hne
      have hpos : 0 < q._k := lt_of_le_of_ne (hk q hq) (Ne.symm hqk)
      have hmem : q._k ∈ nearestK nearest := List.mem_map.mpr ⟨q, hq, rfl⟩
      have hle : q._k ≤ (nearestK nearest).sum := List.single_le_sum hc _ hmem
      have hks1 : (nearest.map fun q => q._k) = nearestK nearest := rfl
      simp only [hks1]
      intro h
      have hlen := congrArg List.length h
      simp only [List.length_replicate, List.length_nil] at hlen
      omega

/-- C7, amended, on concrete batches against the empty tree. -/
theorem query_empty_tree_witness :
    emptyTree.size = 0 ∧
    emptyTree.query Reversed bruteForce (Queries.SpatialPredicateTag spatialBatch) [7] [7, 7]
      = some { indices := [], offset := List.replicate (spatialBatch.length + 1) 0,
               distances := none } ∧
    (∃ out : Views,
      emptyTree.query Reversed bruteForce (Queries.NearestPredicateTag nearestBatch) [7] [7, 7]
        = some out ∧
      out.offset.length = nearestBatch.length + 1 ∧
      (∀ i : Nat, i ≤ nearestBatch.length →
        out.offset.read (i : Int) = some ((nearestBatch.map fun q => q._k).take i).sum) ∧
      out.indices
        = List.replicate (nearestBatch.map fun (q : Nearest Int) => q._k).sum.toNat (-1) ∧
      (((∀ q ∈ nearestBatch, q._k = 0) →
        out.offset = List.replicate (nearestBatch.length + 1) 0 ∧ out.indices = []) ∧
       ((∃ q ∈ nearestBatch, q._k ≠ 0) → out.indices ≠ []))) :=
  ⟨by decide,
   (query_empty_tree Reversed bruteForce emptyTree spatialBatch nearestBatch [7] [7, 7]
      (by decide) (by decide) (by decide)).1 (by decide),
   (query_empty_tree Reversed bruteForce emptyTree spatialBatch nearestBatch [7] [7, 7]
      (by decide) (by decide) (by decide)).2 (by decide) (by decide) (by decide)⟩

/-! ## The accessors -/

/-- C8: for every tree, `size()` is the number N of leaf nodes, `empty()`
holds iff N = 0, and `bounds()` returns the default-constructed box when
N = 0, the bounding box of `leaf_nodes[0]` when N = 1 and the bounding box of
`internal_nodes[0]` when N > 1 (an element that exists in a tree of N leaves
and N - 1 internal nodes). -/
theorem bounds_size_empty {Box : Type} [Inhabited Box] (bvh : BVH Box) :
    bvh.size = bvh._leaf_nodes.length ∧
    (bvh.empty = true ↔ bvh.size = 0) ∧
    (bvh.size = 0 → bvh.bounds = some default) ∧
    (bvh.size = 1 → ∃ leaf : Node Box,
      bvh._leaf_nodes.read 0 = some leaf ∧ bvh.bounds = some leaf.bounding_box) ∧
    (1 < bvh.size →
      bvh.bounds = (bvh._internal_nodes.read 0).map (fun node => node.bounding_box)) ∧
    (1 < bvh.size → bvh._internal_nodes.length = bvh.size - 1 → ∃ root : Node Box,
      bvh._internal_nodes.read 0 = some root ∧ bvh.bounds = some root.bounding_box) := by
  have hbounds : 1 < bvh.size →
      bvh.bounds = (bvh._internal_nodes.read 0).map (fun node => node.bounding_box) := by
    intro h
    have h0 : bvh.size ≠ 0 := by omega
    simp [BVH.bounds, BVH.empty, h0, h]
  refine ⟨rfl, by simp [BVH.empty], ?_, ?_, hbounds, ?_⟩
  · intro h
    simp [BVH.bounds, BVH.empty, h]
  · intro h
    have hlen : bvh._leaf_nodes.length = 1 := h
    obtain ⟨leaf, hleaf⟩ := List.length_eq_one.mp hlen
    have hread : bvh._leaf_nodes.read 0 = some leaf := by
      simp [hleaf, View.read]
    refine ⟨leaf, hread, ?_⟩
    simp [BVH.bounds, BVH.empty, h, hread]
  · intro h hint
    have hpos : 0 < bvh._internal_nodes.length := by omega
    obtain ⟨root, rest, hroot⟩ := List.exists_cons_of_length_pos hpos
    have hread : bvh._internal_nodes.read 0 = some root := by
      simp [hroot, View.read]
    exact ⟨root, hread, by rw [hbounds h, hread]; rfl⟩

/-- C8 on the trees of no box, one box and three boxes. -/
theorem bounds_size_empty_witness :
    (emptyTree.size = 0 ∧ emptyTree.empty = true ∧
      emptyTree.bounds = some { lo := 1, hi := 0 }) ∧
    (singleTree.size = 1 ∧ singleTree.empty = false ∧
      ∃ leaf : Node Interval,
        singleTree._leaf_nodes.read 0 = some leaf ∧
        singleTree.bounds = some leaf.bounding_box) ∧
    (1 < threeTree.size ∧ threeTree._internal_nodes.length = threeTree.size - 1 ∧
      threeTree.bounds = some { lo := 0, hi := 5 } ∧
      ∃ root : Node Interval,
        threeTree._internal_nodes.read 0 = some root ∧
        threeTree.bounds = some root.bounding_box) :=
  ⟨⟨by decide, by decide, (bounds_size_empty emptyTree).2.2.1 (by decide)⟩,
   ⟨by decide, by decide, (bounds_size_empty singleTree).2.2.2.1 (by decide)⟩,
   ⟨by decide, by decide, by decide,
    (bounds_size_empty threeTree).2.2.2.2.2 (by decide) (by decide)⟩⟩

/-! ## Determinism -/

/-- C9: with a deterministic traversal (a function of the tree and the query),
running `BVH::query` twice on the same tree and queries, the second time on
the offset and indices views that the first run produced, and on any
execution space, yields the same offset and indices: for spatial queries
when the traversal returns the number of hits it reports, for nearest queries
when every `k` is nonnegative and no query reports more than `k` hits, the
sizes fitting an `int`.  On one execution space the result does not depend
on the prior size or contents of the output views at all. -/
theorem query_idempotent {Box Spatial Geometry : Type} (E1 E2 : ExecutionSpace)
    (T : TreeTraversal Box Spatial Geometry) (bvh : BVH Box)
    (spatial : View Spatial) (nearest : View (Nearest Geometry))
    (indices offset : View Int) :
    ((∀ q ∈ spatial, (T.spatial bvh q).count = ((T.spatial bvh q).hits.length : Int)) →
      (spatial.length : Int) < INT_MAX →
      (spatial.map fun q => (T.spatial bvh q).count).sum ≤ INT_MAX →
      ∃ out : Views,
        bvh.query E1 T (Queries.SpatialPredicateTag spatial) indices offset = some out ∧
        bvh.query E2 T (Queries.SpatialPredicateTag spatial) out.indices out.offset
          = some out) ∧
    ((∀ q ∈ nearest, 0 ≤ q._k ∧ ((T.nearest bvh q).hits.length : Int) ≤ q._k) →
      (nearest.length : Int) < INT_MAX →
      (nearest.map fun q => q._k).sum ≤ INT_MAX →
      ∃ out : Views,
        bvh.query E1 T (Queries.NearestPredicateTag nearest) indices offset = some out ∧
        bvh.query E2 T (Queries.NearestPredicateTag nearest) out.indices out.offset
          = some out) ∧
    (∀ (queries : Queries Spatial Geometry) (indices1 offset1 indices2 offset2 : View Int),
      bvh.query E1 T queries indices1 offset1 = bvh.query E1 T queries indices2 offset2) := by
  refine ⟨?_, ?_, ?_⟩
  · intro hcount hQ hsum
    obtain ⟨out, hout⟩ := queryDispatchSpatial_unique T bvh spatial hcount hQ hsum
    exact ⟨out, by rw [BVH.query_spatial]; exact hout E1 indices offset,
      by rw [BVH.query_spatial]; exact hout E2 out.indices out.offset⟩
  · intro hk hQ hsum
    obtain ⟨out, hout⟩ := queryDispatchNearest_unique T bvh nearest hk hQ hsum
    exact ⟨out, by rw [BVH.query_nearest]; exact hout E1 indices offset,
      by rw [BVH.query_nearest]; exact hout E2 out.indices out.offset⟩
  · intro queries indices1 offset1 indices2 offset2
    cases queries with
    | SpatialPredicateTag qs =>
      rw [BVH.query_spatial, BVH.query_spatial, queryDispatchSpatial_eq,
        queryDispatchSpatial_eq]
    | NearestPredicateTag qs =>
      rw [BVH.query_nearest, BVH.query_nearest, queryDispatchNearest_eq,
        queryDispatchNearest_eq]

/-- C9 on concrete batches against the tree of three boxes: a first run on the
serial execution space with output views that held other data, a second run
with iterations in decreasing order on the views of the first. -/
theorem query_idempotent_witness :
    (threeTree.query Serial bruteForce (Queries.SpatialPredicateTag spatialBatch) [7] [7, 7]
        = some { indices := [1, 2, 1, 2, 0], offset := [0, 2, 2, 5], distances := none } ∧
      threeTree.query Reversed bruteForce (Queries.SpatialPredicateTag spatialBatch)
          [1, 2, 1, 2, 0] [0, 2, 2, 5]
        = some { indices := [1, 2, 1, 2, 0], offset := [0, 2, 2, 5], distances := none }) ∧
    (∃ out : Views,
      threeTree.query Serial bruteForce (Queries.SpatialPredicateTag spatialBatch) [7] [7, 7]
        = some out ∧
      threeTree.query Reversed bruteForce (Queries.SpatialPredicateTag spatialBatch)
        out.indices out.offset = some out) ∧
    (∃ out : Views,
      threeTree.query Serial bruteForce (Queries.NearestPredicateTag nearestBatch) [7] [7, 7]
        = some out ∧
      threeTree.query Reversed bruteForce (Queries.NearestPredicateTag nearestBatch)
        out.indices out.offset = some out) :=
  ⟨by decide,
   (query_idempotent Serial Reversed bruteForce threeTree spatialBatch nearestBatch
      [7] [7, 7]).1 (by decide) (by decide) (by decide),
   (query_idempotent Serial Reversed bruteForce threeTree spatialBatch nearestBatch
      [7] [7, 7]).2.1 (by decide) (by decide) (by decide)⟩

/-! ## Negative `k` -/

/-- C10 as stated fails: on the empty tree the batch of a nearest query with
`k = -1` and one with `k = 1` is answered, with `offset = [0, -1, 0]` and an
empty indices view. -/
theorem query_negative_k_counterexample :
    (∃ q ∈ ([{ _query_point := 0, _k := -1 }, { _query_point := 0, _k := 1 }] :
      View (Nearest Int)), q._k < 0) ∧
    emptyTree.query Serial bruteForce
        (Queries.NearestPredicateTag
          [{ _query_point := 0, _k := -1 }, { _query_point := 0, _k := 1 }]) [] []
      = some { indices := [], offset := [0, -1, 0], distances := none } := by
  decide

/-- C10, amended: the dispatcher makes no check of `k`.  A batch that contains
a nearest query with `k < 0` is answered like any other whenever the
traversal reports no hit for its queries, the prefix sums of the `k` fit an
`int` and their total is nonnegative: `offset[i+1] - offset[i] =
queries[i].k` for every `i`, negative for some `i`, and indices holds
`offset[Q]` slots of -1. -/
theorem query_negative_k {Box Spatial Geometry : Type} (E : ExecutionSpace)
    (T : TreeTraversal Box Spatial Geometry) (bvh : BVH Box)
    (queries : View (Nearest Geometry)) (indices offset : View Int)
    (hneg : ∃ q ∈ queries, q._k < 0)
    (hhits : ∀ q ∈ queries, (T.nearest bvh q).hits = [])
    (hQ : (queries.length : Int) < INT_MAX)
    (hfit : ∀ x ∈ exclusiveScan 0 ((queries.map fun q => q._k) ++ [0]),
      INT_MIN ≤ x ∧ x ≤ INT_MAX)
    (hsum : 0 ≤ (queries.map fun q => q._k).sum) :
    ∃ out : Views,
      bvh.query E T (Queries.NearestPredicateTag queries) indices offset = some out ∧
      out.offset.length = queries.length + 1 ∧
      (∀ (i : Nat) (hi : i < queries.length), ∃ a b : Int,
        out.offset.read (i : Int) = some a ∧ out.offset.read ((i : Int) + 1) = some b ∧
        b - a = queries[i]._k) ∧
      (∃ (i : Nat) (a b : Int), i < queries.length ∧
        out.offset.read (i : Int) = some a ∧ out.offset.read ((i : Int) + 1) = some b ∧
        b < a) ∧
      out.indices
        = List.replicate (queries.map fun (q : Nearest Geometry) => q._k).sum.toNat (-1) := by
  have hall : (exclusiveScan 0 (nearestK queries ++ [0])).all isInt = true := by
    rw [List.all_eq_true]
    intro x hx
    have := hfit x hx
    simp only [isInt, Bool.and_eq_true, decide_eq_true_eq]
    exact this
  have hrun := queryDispatchNearest_no_hits E T bvh queries indices offset hhits hQ hall hsum
  rw [← BVH.query_nearest] at hrun
  obtain ⟨hlen, _, _, hstep⟩ := offsets_spec (nearestK queries)
  have hdiff : ∀ (i : Nat) (hi : i < queries.length), ∃ a b : Int,
      (exclusiveScan 0 (nearestK queries ++ [0])).read (i : Int) = some a ∧
      (exclusiveScan 0 (nearestK queries ++ [0])).read ((i : Int) + 1) = some b ∧
      b - a = queries[i]._k := by
    intro i hi
    have hi1 : i < (nearestK queries).length := by rw [nearestK_length]; exact hi
    refine ⟨_, _, (hstep i hi1).1, (hstep i hi1).2, ?_⟩
    rw [nearestK_getElem queries i hi hi1]
    omega
  refine ⟨_, hrun, by rw [hlen, nearestK_length], hdiff, ?_, rfl⟩
  obtain ⟨q, hq, hqk⟩ := hneg
  obtain ⟨i, hi, rfl⟩ := List.getElem_of_mem hq
  obtain ⟨a, b, ha, hb, hab⟩ := hdiff i hi
  exact ⟨i, a, b, hi, ha, hb, by omega⟩

/-- C10, amended, on the empty tree and the batch with `k = -1` and `k = 1`. -/
theorem query_negative_k_witness :
    ∃ out : Views,
      emptyTree.query Reversed bruteForce
        (Queries.NearestPredicateTag
          [{ _query_point := 0, _k := -1 }, { _query_point := 0, _k := 1 }]) [7] [7, 7]
        = some out ∧
      out.offset.length = 2 + 1 ∧
      (∀ (i : Nat) (hi : i < ([{ _query_point := 0, _k := -1 },
          { _query_point := 0, _k := 1 }] : View (Nearest Int)).length), ∃ a b : Int,
        out.offset.read (i : Int) = some a ∧ out.offset.read ((i : Int) + 1) = some b ∧
        b - a = ([{ _query_point := 0, _k := -1 }, { _query_point := 0, _k := 1 }] :
          View (Nearest Int))[i]._k) ∧
      (∃ (i : Nat) (a b : Int), i < ([{ _query_point := 0, _k := -1 },
          { _query_point := 0, _k := 1 }] : View (Nearest Int)).length ∧
        out.offset.read (i : Int) = some a ∧ out.offset.read ((i : Int) + 1) = some b ∧
        b < a) ∧
      out.indices = List.replicate
        (([{ _query_point := 0, _k := -1 }, { _query_point := 0, _k := 1 }] :
          View (Nearest Int)).map fun (q : Nearest Int) => q._k).sum.toNat (-1) :=
  query_negative_k Reversed bruteForce emptyTree
    [{ _query_point := 0, _k := -1 }, { _query_point := 0, _k := 1 }] [7] [7, 7]
    (by decide) (by decide) (by decide) (by decide) (by decide)

/-! ## The slots of the writes -/

theorem invoke_targetSlot {Hit : Type} (offset : View Int) (i : Nat) (o : Int)
    (ho : offset.read (i : Int) = some o) (hits : List Hit) :
    ∀ (acc : List Int) (c : Int),
      invoke (targetSlot offset i) hits (acc, c) =
        some (acc ++ (List.range hits.length).map (fun (m : Nat) => o + c + (m : Int)),
          c + (hits.length : Int)) := by
  induction hits with
  | nil => intro acc c; simp [invoke]
  | cons h hs ih =>
    intro acc c
    simp only [invoke, targetSlot, ho, Option.bind_eq_bind, Option.some_bind, Option.pure_def]
    rw [ih]
    simp only [List.length_cons, List.range_succ_eq_map, List.map_cons, List.map_map,
      List.append_assoc, List.singleton_append]
    congr 2
    · congr 1
      · simp
        intro m _
        omega
    · push_cast
      omega

theorem targets_eq {Hit : Type} (offset : View Int) (i : Nat) (o : Int)
    (ho : offset.read (i : Int) = some o) (hits : List Hit) :
    targets offset i hits = some ((List.range hits.length).map (fun (m : Nat) => o + (m : Int))) := by
  rw [targets, invoke_targetSlot offset i o ho]
  simp

theorem scatter_eq_writeEach {α : Type} (data : List α) :
    ∀ (v : View α) (s : Int),
      scatter v s data =
        v.writeEach (((List.range data.length).map (fun (m : Nat) => s + (m : Int))).zip data) := by
  induction data with
  | nil => intro v s; rfl
  | cons x xs ih =>
    intro v s
    simp only [scatter, List.length_cons, List.range_succ_eq_map, List.map_cons, List.map_map,
      List.zip_cons_cons, View.writeEach]
    have e : (fun m : Nat => s + 1 + (m : Int)) = ((fun m : Nat => s + (m : Int)) ∘ Nat.succ) := by
      funext m
      simp only [Function.comp]
      push_cast
      omega
    simp only [Nat.cast_zero, add_zero]
    cases v.write s x with
    | none => rfl
    | some v1 =>
      simp only [Option.some_bind]
      rw [ih v1 (s + 1), e]

/-- The callbacks of a query without distances write their hits at the slots
they target, one after the other. -/
theorem storeIndex_writes (offset : View Int) (i : Nat) (hits : List Int) (ts : List Int)
    (h : targets offset i hits = some ts) (v : View Int) :
    invoke (storeIndex offset i) hits (v, 0) =
      (v.writeEach (ts.zip hits)).map (fun w => (w, (hits.length : Int))) := by
  cases ho : offset.read (i : Int) with
  | none =>
    cases hits with
    | nil =>
      simp only [targets, invoke, Option.map_some', Option.some.injEq] at h
      subst h
      rfl
    | cons x xs =>
      simp [targets, invoke, targetSlot, ho] at h
  | some o =>
    rw [targets_eq offset i o ho] at h
    rw [invoke_storeIndex offset i o ho, ← Option.some.inj h, add_zero, scatter_eq_writeEach]
    simp

/-- The callbacks of a query with distances write the indices and the distances
of their hits at the slots they target, one after the other. -/
theorem storeIndexAndDistance_writes (offset : View Int) (i : Nat)
    (hits : List (Int × Double)) (ts : List Int)
    (h : targets offset i hits = some ts) (v : View Int) (d : View Double) :
    invoke (storeIndexAndDistance offset i) hits ((v, d), 0) =
      (v.writeEach (ts.zip (hits.map Prod.fst))).bind (fun v1 =>
        (d.writeEach (ts.zip (hits.map Prod.snd))).map (fun d1 =>
          ((v1, d1), (hits.length : Int)))) := by
  cases ho : offset.read (i : Int) with
  | none =>
    cases hits with
    | nil =>
      simp only [targets, invoke, Option.map_some', Option.some.injEq] at h
      subst h
      rfl
    | cons x xs =>
      simp [targets, invoke, targetSlot, ho] at h
  | some o =>
    rw [targets_eq offset i o ho] at h
    rw [invoke_storeIndexAndDistance offset i o ho, ← Option.some.inj h, add_zero,
      scatter_eq_writeEach, scatter_eq_writeEach]
    simp

/-- The slots targeted over the layout of the counts `cs`: when the hits of
every query fit its slice, the writes stay within the slices. -/
theorem targets_layout {Hit : Type} (cs : List Int) (hc : ∀ x ∈ cs, 0 ≤ x)
    (d : Nat → List Hit)
    (hd : ∀ i, i < cs.length →
      (cs.take i).sum + ((d i).length : Int) ≤ (cs.take (i + 1)).sum)
    (extent : Nat) (hextent : (extent : Int) = cs.sum) :
    WritesWithinSlices (exclusiveScan 0 (cs ++ [0])) extent cs.length
      (fun i => targets (exclusiveScan 0 (cs ++ [0])) i (d i)) := by
  obtain ⟨_, _, hlast, hstep⟩ := offsets_spec cs
  have hmono := take_sum_mono cs hc
  have hmem : ∀ i, i < cs.length → ∀ ts,
      targets (exclusiveScan 0 (cs ++ [0])) i (d i) = some ts →
      ∀ p ∈ ts, (cs.take i).sum ≤ p ∧ p < (cs.take (i + 1)).sum := by
    intro i hi ts hts p hp
    rw [targets_eq _ i _ (hstep i hi).1] at hts
    rw [← Option.some.inj hts] at hp
    obtain ⟨m, hm, rfl⟩ := List.mem_map.mp hp
    have hm1 := List.mem_range.mp hm
    have := hd i hi
    omega
  refine ⟨by rw [hextent]; exact hlast, ?_, ?_⟩
  · intro i hi
    refine ⟨(cs.take i).sum, (cs.take (i + 1)).sum, _, (hstep i hi).1, ?_,
      targets_eq _ i _ (hstep i hi).1 (d i), ?_⟩
    · rw [take_sum_succ cs i hi]
      exact (hstep i hi).2
    · intro p hp
      have h1 := hmem i hi _ (targets_eq _ i _ (hstep i hi).1 (d i)) p hp
      have h2 := take_sum_nonneg cs hc i
      have h3 := take_sum_le_sum cs hc (i + 1)
      refine ⟨h1.1, h1.2, ?_, ?_⟩ <;> omega
  · intro i j hi hj hij ts us hts hus p hp hq
    have h1 := hmem i hi ts hts p hp
    have h2 := hmem j hj us hus p hq
    rcases Nat.lt_or_gt_of_ne hij with h | h
    · have := hmono (i + 1) j h
      omega
    · have := hmono (j + 1) i h
      omega

/-- The second pass of the spatial dispatcher when no query hands its callback
more hits than the count of the first pass: it completes when the sizes fit
an `int`, on a view of indices whose extent is the total of the counts. -/
theorem queryDispatchSpatial_fits {Box Spatial Geometry : Type} (E : ExecutionSpace)
    (T : TreeTraversal Box Spatial Geometry) (bvh : BVH Box) (queries : View Spatial)
    (indices offset : View Int)
    (hcount : ∀ q ∈ queries, ((T.spatial bvh q).hits.length : Int) ≤ (T.spatial bvh q).count)
    (hQ : (queries.length : Int) < INT_MAX)
    (hsum : (spatialCounts T bvh queries).sum ≤ INT_MAX) :
    ∃ ind : View Int,
      queryDispatchSpatial E T bvh queries indices offset
        = some (Views.mk ind (exclusiveScan 0 (spatialCounts T bvh queries ++ [0])) none) ∧
      (ind.length : Int) = (spatialCounts T bvh queries).sum := by
  have hc : ∀ x ∈ spatialCounts T bvh queries, 0 ≤ x := by
    intro x hx
    obtain ⟨q, hq, rfl⟩ := List.mem_map.mp hx
    have := hcount q hq
    omega
  have h0 : 0 ≤ (spatialCounts T bvh queries).sum := List.sum_nonneg hc
  have hlen : ((List.replicate (spatialCounts T bvh queries).sum.toNat (0 : Int)).length : Int)
      = (spatialCounts T bvh queries).sum := by
    rw [List.length_replicate]; omega
  obtain ⟨w, hw, hwl, _, _⟩ := second_pass (spatialCounts T bvh queries)
    (spatialHits T bvh queries) (E.order "second_pass" queries.length)
    (by rw [spatialCounts_length]; exact E.perm _ _) hc
    (fun i hi => by
      have hi1 : i < queries.length := by rwa [spatialCounts_length] at hi
      have := hcount _ (List.getElem_mem hi1)
      rw [take_sum_succ _ i hi, spatialCounts_getElem T bvh queries i hi1 hi,
        spatialHits_of_lt T bvh queries i hi1]
      omega)
    (List.replicate (spatialCounts T bvh queries).sum.toNat 0) hlen
  refine ⟨w, ?_, by rw [hwl, hlen]⟩
  rw [queryDispatchSpatial_eq, if_pos (by omega), if_pos (exclusiveScan_all_isInt _ hc hsum),
    if_pos h0, hw]
  rfl

/-! ## The writes of the second pass -/

/-- C14: in the second pass of both dispatchers, when every nearest `k` is
nonnegative and the traversal of query `i` hands its callback no more hits
than the `offset[i+1] - offset[i]` slots reserved for it (the count of the
first pass for a spatial query, `k` for a nearest query), then, whenever the
dispatcher returns, `offset[Q]` is the extent of `indices` (and of
`distances`), every slot that the callbacks of query `i` write lies in
`[offset[i], offset[i+1])` and inside `[0, offset[Q])`, and no two distinct
queries write a common slot.  The dispatcher does return when Q+1 and the
total of the counts fit an `int`. -/
theorem second_pass_writes {Box Spatial Geometry : Type} (E : ExecutionSpace)
    (T : TreeTraversal Box Spatial Geometry) (bvh : BVH Box)
    (spatial : View Spatial) (nearest : View (Nearest Geometry))
    (indices offset : View Int) (distances_ptr : Option (View Double)) :
    ((∀ q ∈ spatial, ((T.spatial bvh q).hits.length : Int) ≤ (T.spatial bvh q).count) →
      (∀ out : Views, queryDispatchSpatial E T bvh spatial indices offset = some out →
        WritesWithinSlices out.offset out.indices.length spatial.length
          (fun i => targets out.offset i (spatialHits T bvh spatial i))) ∧
      ((spatial.length : Int) < INT_MAX →
        (spatial.map fun q => (T.spatial bvh q).count).sum ≤ INT_MAX →
        ∃ out : Views, queryDispatchSpatial E T bvh spatial indices offset = some out)) ∧
    ((∀ q ∈ nearest, 0 ≤ q._k ∧ ((T.nearest bvh q).hits.length : Int) ≤ q._k) →
      (∀ out : Views,
        queryDispatchNearest E T bvh nearest indices offset distances_ptr = some out →
        WritesWithinSlices out.offset out.indices.length nearest.length
          (fun i => targets out.offset i (nearestHits T bvh nearest i)) ∧
        ∀ dv : View Double, out.distances = some dv → dv.length = out.indices.length) ∧
      ((nearest.length : Int) < INT_MAX →
        (nearest.map fun q => q._k).sum ≤ INT_MAX →
        ∃ out : Views,
          queryDispatchNearest E T bvh nearest indices offset distances_ptr = some out)) := by
  constructor
  · intro hcount
    have hc : ∀ x ∈ spatialCounts T bvh spatial, 0 ≤ x := by
      intro x hx
      obtain ⟨q, hq, rfl⟩ := List.mem_map.mp hx
      have := hcount q hq
      omega
    constructor
    · intro out h
      obtain ⟨hQ, hsum, _, _, _, _⟩ := queryDispatchSpatial_inv h
      obtain ⟨ind, hrun, hlen⟩ :=
        queryDispatchSpatial_fits E T bvh spatial indices offset hcount (by omega) hsum
      have hout1 : out = Views.mk ind (exclusiveScan 0 (spatialCounts T bvh spatial ++ [0]))
          none := Option.some.inj (h.symm.trans hrun)
      subst hout1
      have hl := targets_layout (spatialCounts T bvh spatial) hc (spatialHits T bvh spatial)
        (fun i hi => by
          have hi1 : i < spatial.length := by rwa [spatialCounts_length] at hi
          have := hcount _ (List.getElem_mem hi1)
          rw [take_sum_succ _ i hi, spatialCounts_getElem T bvh spatial i hi1 hi,
            spatialHits_of_lt T bvh spatial i hi1]
          omega)
        ind.length hlen
      rw [spatialCounts_length] at hl
      exact hl
    · intro hQ hsum
      obtain ⟨ind, hrun, _⟩ :=
        queryDispatchSpatial_fits E T bvh spatial indices offset hcount hQ hsum
      exact ⟨_, hrun⟩
  · intro hk
    have hc : ∀ x ∈ nearestK nearest, 0 ≤ x := by
      intro x hx
      obtain ⟨q, hq, rfl⟩ := List.mem_map.mp hx
      exact (hk q hq).1
    constructor
    · intro out h
      obtain ⟨hQ, hsum, _, _⟩ := queryDispatchNearest_inv h
      obtain ⟨ind, dist, hrun, hlen, _, _, hnone, hsome⟩ :=
        queryDispatchNearest_run E T bvh nearest indices offset distances_ptr hk (by omega) hsum
      have hout1 : out = Views.mk ind (exclusiveScan 0 (nearestK nearest ++ [0])) dist :=
        Option.some.inj (h.symm.trans hrun)
      subst hout1
      have hl := targets_layout (nearestK nearest) hc (nearestHits T bvh nearest)
        (fun i hi => by
          have hi1 : i < nearest.length := by rwa [nearestK_length] at hi
          have := (hk _ (List.getElem_mem hi1)).2
          rw [take_sum_succ _ i hi, nearestK_getElem nearest i hi1 hi,
            nearestHits_of_lt T bvh nearest i hi1]
          omega)
        ind.length hlen
      rw [nearestK_length] at hl
      refine ⟨hl, ?_⟩
      intro dv hdv
      cases distances_ptr with
      | none =>
        rw [hnone rfl] at hdv
        exact Option.noConfusion hdv
      | some distances =>
        obtain ⟨dv1, hdv1, hdl, _⟩ := hsome (fun h => Option.noConfusion h)
        have e : dv = dv1 := Option.some.inj (hdv.symm.trans hdv1)
        subst e
        have : (dv.length : Int) = (ind.length : Int) := by rw [hdl, hlen]
        exact Int.ofNat.inj this
    · intro hQ hsum
      obtain ⟨ind, dist, hrun, _⟩ :=
        queryDispatchNearest_run E T bvh nearest indices offset distances_ptr hk hQ hsum
      exact ⟨_, hrun⟩

/-- C14 on concrete batches against the tree of three boxes: the spatial batch
writes the slots 0, 1 for its first query, none for the second and 2, 3, 4
for the third; the nearest batch, with distances, writes the slots 0, 1, 2
of the five reserved for its first query and 5, 6 for the second. -/
theorem second_pass_writes_witness :
    (∀ q ∈ spatialBatch, ((bruteForce.spatial threeTree q).hits.length : Int)
      ≤ (bruteForce.spatial threeTree q).count) ∧
    queryDispatchSpatial Reversed bruteForce threeTree spatialBatch [] []
      = some { indices := [1, 2, 1, 2, 0], offset := [0, 2, 2, 5], distances := none } ∧
    (List.range 3).map
        (fun i => targets [0, 2, 2, 5] i (spatialHits bruteForce threeTree spatialBatch i))
      = [some [0, 1], some [], some [2, 3, 4]] ∧
    WritesWithinSlices [0, 2, 2, 5] 5 3
      (fun i => targets [0, 2, 2, 5] i (spatialHits bruteForce threeTree spatialBatch i)) ∧
    (∀ q ∈ nearestBatch, 0 ≤ q._k ∧
      ((bruteForce.nearest threeTree q).hits.length : Int) ≤ q._k) ∧
    queryDispatchNearest Reversed bruteForce threeTree nearestBatch [] [] (some [])
      = some { indices := [1, 2, 0, -1, -1, 2, 0], offset := [0, 5, 7, 7],
               distances := some [Double.finite false 0 0, Double.finite false 2 0,
                 Double.finite false 4 0, ArithTraits_double_max, ArithTraits_double_max,
                 Double.finite false 0 0, Double.finite false 1 0] } ∧
    (List.range 3).map
        (fun i => targets [0, 5, 7, 7] i (nearestHits bruteForce threeTree nearestBatch i))
      = [some [0, 1, 2], some [5, 6], some []] ∧
    WritesWithinSlices [0, 5, 7, 7] 7 3
      (fun i => targets [0, 5, 7, 7] i (nearestHits bruteForce threeTree nearestBatch i)) :=
  ⟨by decide, by decide, by decide,
   ((second_pass_writes Reversed bruteForce threeTree spatialBatch nearestBatch [] []
      (some [])).1 (by decide)).1
      { indices := [1, 2, 1, 2, 0], offset := [0, 2, 2, 5], distances := none } (by decide),
   by decide, by decide, by decide,
   (((second_pass_writes Reversed bruteForce threeTree spatialBatch nearestBatch [] []
      (some [])).2 (by decide)).1
      { indices := [1, 2, 0, -1, -1, 2, 0], offset := [0, 5, 7, 7],
        distances := some [Double.finite false 0 0, Double.finite false 2 0,
          Double.finite false 4 0, ArithTraits_double_max, ArithTraits_double_max,
          Double.finite false 0 0, Double.finite false 1 0] } (by decide)).1⟩

/-! ## With and without distances -/

/-- Whether the writes of one query succeed depends on the slots alone: on two
views of the same extent, with as many values, both runs fail or both
complete. -/
theorem scatter_both {α β : Type} (xs : List α) :
    ∀ (ys : List β), xs.length = ys.length → ∀ (v : View α) (w : View β) (s : Int),
      v.length = w.length →
      (scatter v s xs = none ∧ scatter w s ys = none) ∨
      (∃ v1 w1, scatter v s xs = some v1 ∧ scatter w s ys = some w1 ∧
        v1.length = w1.length) := by
  induction xs with
  | nil =>
    intro ys hys v w s hvw
    cases ys with
    | nil => exact Or.inr ⟨v, w, rfl, rfl, hvw⟩
    | cons y ys => simp at hys
  | cons x xs ih =>
    intro ys hys v w s hvw
    cases ys with
    | nil => simp at hys
    | cons y ys =>
      have hys1 : xs.length = ys.length := by simpa using hys
      simp only [scatter, View.write]
      by_cases hs : 0 ≤ s ∧ s < (v.length : Int)
      · have hs1 : 0 ≤ s ∧ s < (w.length : Int) := by rw [← hvw]; exact hs
        rw [if_pos hs, if_pos hs1]
        simp only [Option.some_bind]
        exact ih ys hys1 _ _ (s + 1) (by simp [hvw])
      · have hs1 : ¬ (0 ≤ s ∧ s < (w.length : Int)) := by rw [← hvw]; exact hs
        rw [if_neg hs, if_neg hs1]
        exact Or.inl ⟨rfl, rfl⟩

/-- Two loops of writes at the same slots in the same order, on views of the
same extent: both fail or both complete. -/
theorem loop_scatter_both {α β : Type} (s : Nat → Int) (d1 : Nat → List α)
    (d2 : Nat → List β) (hd : ∀ i, (d1 i).length = (d2 i).length) :
    ∀ (order : List Nat) (v : View α) (w : View β), v.length = w.length →
      (parallel_for.loop (fun i t => scatter t (s i) (d1 i)) order v = none ∧
        parallel_for.loop (fun i t => scatter t (s i) (d2 i)) order w = none) ∨
      (∃ v1 w1, parallel_for.loop (fun i t => scatter t (s i) (d1 i)) order v = some v1 ∧
        parallel_for.loop (fun i t => scatter t (s i) (d2 i)) order w = some w1 ∧
        v1.length = w1.length) := by
  intro order
  induction order with
  | nil => intro v w hvw; exact Or.inr ⟨v, w, rfl, rfl, hvw⟩
  | cons i rest ih =>
    intro v w hvw
    simp only [parallel_for.loop]
    rcases scatter_both (d1 i) (d2 i) (hd i) v w (s i) hvw with ⟨h1, h2⟩ | ⟨v1, w1, h1, h2, h3⟩
    · rw [h1, h2]
      exact Or.inl ⟨rfl, rfl⟩
    · rw [h1, h2]
      simp only [Option.some_bind]
      exact ih v1 w1 h3

/-- The nearest dispatcher with and without distances, when the two kernels of
the second pass run their iterations in the same order: the same offsets and
indices, or no result either way. -/
theorem queryDispatchNearest_same_order {Box Spatial Geometry : Type} (E : ExecutionSpace)
    (T : TreeTraversal Box Spatial Geometry) (bvh : BVH Box)
    (queries : View (Nearest Geometry)) (indices offset indices1 offset1 : View Int)
    (distances : View Double)
    (horder : E.order "perform_nearest_queries_and_return_distances" queries.length
      = E.order "perform_nearest_queries" queries.length) :
    (queryDispatchNearest E T bvh queries indices offset (some distances)).map
        (fun out => (out.offset, out.indices))
      = (queryDispatchNearest E T bvh queries indices1 offset1 none).map
        (fun out => (out.offset, out.indices)) := by
  rw [queryDispatchNearest_eq, queryDispatchNearest_eq]
  split_ifs with h1 h2 h3
  · simp only [horder]
    rcases loop_scatter_both (fun i => ((nearestK queries).take i).sum)
      (fun i => (nearestHits T bvh queries i).map Prod.fst)
      (fun i => (nearestHits T bvh queries i).map Prod.snd)
      (fun i => by simp) (E.order "perform_nearest_queries" queries.length)
      (List.replicate (nearestK queries).sum.toNat (-1))
      (List.replicate (nearestK queries).sum.toNat ArithTraits_double_max)
      (by simp) with ⟨h4, h5⟩ | ⟨v1, w1, h4, h5, _⟩
    · rw [h4]
      rfl
    · rw [h4, h5]
      rfl
  · rfl
  · rfl
  · rfl

/-- The nearest dispatcher with and without distances, when every `k` is
nonnegative and no query reports more than `k` hits: the same offsets and
indices, or no result either way, whatever the orders of the iterations. -/
theorem queryDispatchNearest_same_contract {Box Spatial Geometry : Type}
    (E : ExecutionSpace) (T : TreeTraversal Box Spatial Geometry) (bvh : BVH Box)
    (queries : View (Nearest Geometry)) (indices offset indices1 offset1 : View Int)
    (distances : View Double)
    (hk : ∀ q ∈ queries, 0 ≤ q._k ∧ ((T.nearest bvh q).hits.length : Int) ≤ q._k) :
    (queryDispatchNearest E T bvh queries indices offset (some distances)).map
        (fun out => (out.offset, out.indices))
      = (queryDispatchNearest E T bvh queries indices1 offset1 none).map
        (fun out => (out.offset, out.indices)) := by
  have hc : ∀ x ∈ nearestK queries, 0 ≤ x := by
    intro x hx
    obtain ⟨q, hq, rfl⟩ := List.mem_map.mp hx
    exact (hk q hq).1
  have hfit : (queries.length : Int) < INT_MAX → (nearestK queries).sum ≤ INT_MAX →
      (queryDispatchNearest E T bvh queries indices offset (some distances)).map
          (fun out => (out.offset, out.indices))
        = (queryDispatchNearest E T bvh queries indices1 offset1 none).map
          (fun out => (out.offset, out.indices)) := by
    intro hQ hsum
    obtain ⟨ind, dist, h, hlen, hin, hout, _⟩ :=
      queryDispatchNearest_run E T bvh queries indices offset (some distances) hk hQ hsum
    obtain ⟨ind0, dist0, h0, hlen0, hin0, hout0, _⟩ :=
      queryDispatchNearest_run E T bvh queries indices1 offset1 none hk hQ hsum
    have heq : ind = ind0 := by
      apply View.eq_of_layout (nearestK queries) hc ind ind0 hlen hlen0
      intro i hi j hj
      have hi1 : i < queries.length := by rwa [nearestK_length] at hi
      rw [nearestK_getElem queries i hi1 hi] at hj
      by_cases hj1 : j < (T.nearest bvh queries[i]).hits.length
      · rw [hin i hi1 j hj1, hin0 i hi1 j hj1]
      · rw [hout i hi1 j (Nat.le_of_not_lt hj1) hj, hout0 i hi1 j (Nat.le_of_not_lt hj1) hj]
    rw [h, h0, heq]
    rfl
  cases h1 : queryDispatchNearest E T bvh queries indices offset (some distances) with
  | some out1 =>
    obtain ⟨hQ, hsum, _, _⟩ := queryDispatchNearest_inv h1
    rw [← h1]
    exact hfit (by omega) hsum
  | none =>
    cases h2 : queryDispatchNearest E T bvh queries indices1 offset1 none with
    | some out2 =>
      obtain ⟨hQ, hsum, _, _⟩ := queryDispatchNearest_inv h2
      rw [← h1, ← h2]
      exact hfit (by omega) hsum
    | none => rfl

/-- C15: for every tree and every batch of nearest queries, the overload of
`BVH::query` that also returns distances and the overload that does not
produce the same offset and indices views, and either both return or none
does; only the former returns distances.  This holds when the two kernels of
the second pass run their iterations in the same order, and, whatever the
orders, when every `k` is nonnegative and no query reports more than `k`
hits.  Both overloads do return in the latter case when Q+1 and the total of
the `k` fit an `int`. -/
theorem query_distances_same_offset_indices {Box Spatial Geometry : Type}
    (E : ExecutionSpace) (T : TreeTraversal Box Spatial Geometry) (bvh : BVH Box)
    (queries : View (Nearest Geometry)) (indices offset : View Int)
    (distances : View Double)
    (h : E.order "perform_nearest_queries_and_return_distances" queries.length
        = E.order "perform_nearest_queries" queries.length ∨
      ∀ q ∈ queries, 0 ≤ q._k ∧ ((T.nearest bvh q).hits.length : Int) ≤ q._k) :
    (bvh.queryDistances E T queries indices offset distances).map
        (fun out => (out.offset, out.indices))
      = (bvh.query E T (Queries.NearestPredicateTag queries) indices offset).map
        (fun out => (out.offset, out.indices)) ∧
    (∀ out : Views,
      bvh.queryDistances E T queries indices offset distances = some out →
      out.distances ≠ none) ∧
    (∀ out : Views,
      bvh.query E T (Queries.NearestPredicateTag queries) indices offset = some out →
      out.distances = none) ∧
    ((∀ q ∈ queries, 0 ≤ q._k ∧ ((T.nearest bvh q).hits.length : Int) ≤ q._k) →
      (queries.length : Int) < INT_MAX →
      (queries.map fun q => q._k).sum ≤ INT_MAX →
      ∃ out1 out2 : Views,
        bvh.queryDistances E T queries indices offset distances = some out1 ∧
        bvh.query E T (Queries.NearestPredicateTag queries) indices offset = some out2) := by
  rw [BVH.query_nearest, BVH.queryDistances]
  refine ⟨?_, ?_, ?_, ?_⟩
  · rcases h with h | h
    · exact queryDispatchNearest_same_order E T bvh queries indices offset indices offset
        distances h
    · exact queryDispatchNearest_same_contract E T bvh queries indices offset indices offset
        distances h
  · intro out hout
    rw [queryDispatchNearest_eq] at hout
    split_ifs at hout with h1 h2 h3
    simp only [Option.bind_eq_some, Option.map_eq_some'] at hout
    obtain ⟨ind, _, dist, _, rfl⟩ := hout
    exact fun h => Option.noConfusion h
  · intro out hout
    rw [queryDispatchNearest_eq] at hout
    split_ifs at hout with h1 h2 h3
    obtain ⟨ind, _, rfl⟩ := Option.map_eq_some'.mp hout
    rfl
  · intro hk hQ hsum
    obtain ⟨ind, dist, h1, _⟩ :=
      queryDispatchNearest_run E T bvh queries indices offset (some distances) hk hQ hsum
    obtain ⟨ind0, dist0, h0, _⟩ :=
      queryDispatchNearest_run E T bvh queries indices offset none hk hQ hsum
    exact ⟨_, _, h1, h0⟩

/-- C15 on a concrete batch: 5 neighbours requested of a tree of three boxes,
then 2, then 0, with and without distances. -/
theorem query_distances_same_offset_indices_witness :
    (∀ q ∈ nearestBatch, 0 ≤ q._k ∧
      ((bruteForce.nearest threeTree q).hits.length : Int) ≤ q._k) ∧
    threeTree.queryDistances Reversed bruteForce nearestBatch [] [] []
      = some { indices := [1, 2, 0, -1, -1, 2, 0], offset := [0, 5, 7, 7],
               distances := some [Double.finite false 0 0, Double.finite false 2 0,
                 Double.finite false 4 0, ArithTraits_double_max, ArithTraits_double_max,
                 Double.finite false 0 0, Double.finite false 1 0] } ∧
    threeTree.query Reversed bruteForce (Queries.NearestPredicateTag nearestBatch) [] []
      = some { indices := [1, 2, 0, -1, -1, 2, 0], offset := [0, 5, 7, 7],
               distances := none } ∧
    (threeTree.queryDistances Reversed bruteForce nearestBatch [] [] []).map
        (fun out => (out.offset, out.indices))
      = (threeTree.query Reversed bruteForce
          (Queries.NearestPredicateTag nearestBatch) [] []).map
        (fun out => (out.offset, out.indices)) :=
  ⟨by decide, by decide, by decide,
   (query_distances_same_offset_indices Reversed bruteForce threeTree nearestBatch [] [] []
      (Or.inr (by decide))).1⟩

/-! ## The map operator -/

/-- C13: `MapOperator::opSupportedImpl( M_trans )` returns true exactly when
`M_trans` is `NOTRANS`, and for every other `M_trans` the call of
`MapOperator::applyImpl` ends at its `DTK_INSIST` check and leaves
`range_dofs` as it was, whatever the operator, the multi-vectors (null or
not) and the scalars. -/
theorem applyImpl_not_supported {Scalar D W : Type} [Semiring Scalar] [DecidableEq Scalar]
    [AddCommMonoid W] [Module Scalar W] (self : MapOperator Scalar D W) :
    (∀ M_trans : Thyra.EOpTransp,
      self.opSupportedImpl M_trans = true ↔ M_trans = Thyra.EOpTransp.NOTRANS) ∧
    (∀ M_trans : Thyra.EOpTransp, M_trans ≠ Thyra.EOpTransp.NOTRANS →
      ∀ (domain_dofs : D) (range_dofs : Option W) (alpha beta : Scalar),
        self.applyImpl M_trans domain_dofs range_dofs alpha beta
          = (some Assertion.DTK_INSIST, range_dofs)) := by
  constructor
  · intro M_trans
    simp [MapOperator.opSupportedImpl]
  · intro M_trans h domain_dofs range_dofs alpha beta
    simp [MapOperator.applyImpl, MapOperator.opSupportedImpl, h]

/-- C13 on the three other values of `M_trans`, for an operator over the
integers. -/
theorem applyImpl_not_supported_witness :
    Thyra.EOpTransp.TRANS ≠ Thyra.EOpTransp.NOTRANS ∧
    pairOperator.opSupportedImpl Thyra.EOpTransp.TRANS = false ∧
    pairOperator.applyImpl Thyra.EOpTransp.CONJ (1, 1) (some (1, 2)) 2 3
      = (some Assertion.DTK_INSIST, some (1, 2)) ∧
    pairOperator.applyImpl Thyra.EOpTransp.CONJTRANS (1, 1) none 2 3
      = (some Assertion.DTK_INSIST, none) ∧
    pairOperator.applyImpl Thyra.EOpTransp.TRANS (1, 1) (some (1, 2)) 2 3
      = (some Assertion.DTK_INSIST, some (1, 2)) :=
  ⟨by decide, by decide, by decide, by decide,
   (applyImpl_not_supported pairOperator).2 Thyra.EOpTransp.TRANS (by decide) (1, 1)
     (some (1, 2)) 2 3⟩

/-- C11: `MapOperator::applyImpl`, called with `M_trans = NOTRANS`, a non-null
coupling matrix `A` and a non-null `range_dofs`, returns without a failed
check and leaves `range_dofs` equal to `alpha * Minv * (v + A * f) + beta *
g0` for every `alpha` and `beta`, where `f` is `domain_dofs`, `g0` the value
of `range_dofs` on entry, `v` the forcing vector (zero when absent) and `Minv`
the inverse of the mass matrix (the identity when absent); with `alpha = 1`
and `beta = 0` the result is `Minv * (v + A * f)`.  The scalars are those of
a semiring and the multi-vectors those of a module over it: the arithmetic is
exact. -/
theorem applyImpl_NOTRANS {Scalar D W : Type} [Semiring Scalar] [DecidableEq Scalar]
    [AddCommMonoid W] [Module Scalar W] (self : MapOperator Scalar D W)
    (A : Thyra.LinearOpBase Scalar D W) (hA : self.b_coupling_matrix = some A)
    (f : D) (g0 : W) :
    (∀ alpha beta : Scalar,
      self.applyImpl Thyra.EOpTransp.NOTRANS f (some g0) alpha beta
        = (none, some (alpha •
              (match self.b_mass_matrix_inv with
                | some Minv => Minv.op
                | none => id)
                ((match self.b_forcing_vector with
                  | some v => v
                  | none => 0) + A.op f)
            + beta • g0))) ∧
    self.applyImpl Thyra.EOpTransp.NOTRANS f (some g0) 1 0
      = (none, some
          ((match self.b_mass_matrix_inv with
            | some Minv => Minv.op
            | none => id)
            ((match self.b_forcing_vector with
              | some v => v
              | none => 0) + A.op f))) := by
  have hgen : ∀ alpha beta : Scalar,
      self.applyImpl Thyra.EOpTransp.NOTRANS f (some g0) alpha beta
        = (none, some (alpha •
              (match self.b_mass_matrix_inv with
                | some Minv => Minv.op
                | none => id)
                ((match self.b_forcing_vector with
                  | some v => v
                  | none => 0) + A.op f)
            + beta • g0)) := by
    intro alpha beta
    have hb0 : (0 = beta) ↔ (beta = 0) := eq_comm
    obtain ⟨coupling_matrix, mass_matrix_inv, forcing_vector⟩ := self
    simp only at hA
    subst hA
    cases mass_matrix_inv <;> cases forcing_vector <;> by_cases hb : beta = 0 <;>
      simp [MapOperator.applyImpl, MapOperator.opSupportedImpl, hb0, hb,
        Thyra.LinearOpBase.apply, Thyra.createMembers, Thyra.assign, Thyra.Vp_V, Thyra.Vt_S,
        Thyra.update, add_comm]
  refine ⟨hgen, ?_⟩
  rw [hgen 1 0]
  simp

/-- C11 on operators over the integers: with the three data members set, `A f
= (3, 7)`, `v + A f = (4, 6)`, `Minv (v + A f) = (8, 18)`, and `2 * (8, 18) +
3 * (1, 2) = (19, 42)`; with the coupling matrix alone, `2 * (3, 7) + 3 * (1,
2) = (9, 20)`. -/
theorem applyImpl_NOTRANS_witness :
    pairOperator.applyImpl Thyra.EOpTransp.NOTRANS (1, 1) (some (1, 2)) 2 3
      = (none, some (19, 42)) ∧
    pairOperator.applyImpl Thyra.EOpTransp.NOTRANS (1, 1) (some (1, 2)) 2 0
      = (none, some (16, 36)) ∧
    bareOperator.applyImpl Thyra.EOpTransp.NOTRANS (1, 1) (some (1, 2)) 2 3
      = (none, some (9, 20)) ∧
    pairOperator.applyImpl Thyra.EOpTransp.NOTRANS (1, 1) (some (1, 2)) 1 0
      = (none, some
          ((match pairOperator.b_mass_matrix_inv with
            | some Minv => Minv.op
            | none => id)
            ((match pairOperator.b_forcing_vector with
              | some v => v
              | none => 0) + (1 + 2 * 1, 3 * 1 + 4 * 1)))) :=
  ⟨by decide, by decide, by decide,
   (applyImpl_NOTRANS pairOperator { op := fun f => (f.1 + 2 * f.2, 3 * f.1 + 4 * f.2) } rfl
      (1, 1) (1, 2)).2⟩

end DataTransferKit
